import Mathlib

/-!
# go-steamid: a shallow embedding of the identifier codec

The Go packages `types` (`src/types/type.go`) and `steamid`
(`src/steamid/steamid.go`) are embedded as Lean functions.

* `int64` values are mathematical integers (`Int`); every operation that can
  leave the 64-bit range (`<<`, `*`, `+`, `|`, `&`) goes through the
  two's-complement pattern with an explicit `% 2 ^ 64`.
* `types.Type` is a `uint64`, embedded as `Nat`.
* Go strings are Lean strings; the library routines the code calls
  (`strconv.ParseInt`, `strconv.FormatInt`, `fmt.Sprintf`, the three anchored
  regular expressions) work on the list of characters of the string.
* `float64(x)` of an `int64` is the integer obtained by rounding `x` to 53
  significant bits, ties to even.
-/

/-! ## 64-bit machine integers -/

namespace int64

/-- The unsigned 64-bit pattern of an integer (two's complement). -/
def toU64 (x : Int) : Nat := (x % 2 ^ 64).toNat

/-- The `int64` value of a 64-bit pattern. -/
def ofU64 (n : Nat) : Int :=
  if n % 2 ^ 64 < 2 ^ 63 then ((n % 2 ^ 64 : Nat) : Int) else ((n % 2 ^ 64 : Nat) : Int) - 2 ^ 64

/-- Wrap-around of a mathematical result into `int64`. -/
def wrap (x : Int) : Int := ofU64 (toU64 x)

/-- Go `x & y` on `int64`. -/
def and (x y : Int) : Int := ofU64 (toU64 x &&& toU64 y)

/-- Go `x | y` on `int64`. -/
def or (x y : Int) : Int := ofU64 (toU64 x ||| toU64 y)

/-- Go `x << k` on `int64`: bits shifted out of the word are lost. -/
def shl (x : Int) (k : Nat) : Int := ofU64 (toU64 x <<< k)

/-- Go `x >> k` on `int64`: arithmetic shift, i.e. division rounding down. -/
def shr (x : Int) (k : Nat) : Int := x / 2 ^ k

/-- Go `x * y` on `int64`. -/
def mul (x y : Int) : Int := wrap (x * y)

/-- Go `x + y` on `int64`. -/
def add (x y : Int) : Int := wrap (x + y)

/-- The number of binary digits of `n`, at most `fuel` of them. -/
def bitLenAux : Nat → Nat → Nat
  | 0, _ => 0
  | fuel + 1, n => if n = 0 then 0 else bitLenAux fuel (n / 2) + 1

/-- The number of binary digits of `n`. -/
def bitLen (n : Nat) : Nat := bitLenAux n n

/-- Go `float64(x)` for an `int64` `x`: `x` rounded to 53 significant bits,
ties to even. The value of the resulting float is again an integer. -/
def toFloat64 (x : Int) : Int :=
  let a := x.natAbs
  let e := bitLen a - 53
  let q := a / 2 ^ e
  let r := a % 2 ^ e
  let q1 := if 2 ^ e < 2 * r ∨ (2 * r = 2 ^ e ∧ q % 2 = 1) then q + 1 else q
  if x < 0 then -((q1 * 2 ^ e : Nat) : Int) else ((q1 * 2 ^ e : Nat) : Int)

/-- Go `int64(math.Floor(float64(x)/2))`: the float is an integer `f`, halving
it is exact, and the floor of `f/2` is the integer quotient rounding down. -/
def floorHalfViaFloat64 (x : Int) : Int := wrap (toFloat64 x / 2)

end int64

/-! ## `strconv` and `fmt`: decimal text -/

namespace strconv

/-- Errors of `strconv.ParseInt`. -/
inductive NumError where
  | ErrSyntax
  | ErrRange
deriving DecidableEq

/-- An ASCII decimal digit, `'0' <= c && c <= '9'`. -/
def isDigit (c : Char) : Bool := decide (48 ≤ c.toNat ∧ c.toNat ≤ 57)

/-- The value `c - '0'` of a digit. -/
def digitVal (c : Char) : Nat := c.toNat - 48

/-- The digit character of `d < 10`. -/
def digitChar (d : Nat) : Char := Char.ofNat (48 + d)

/-- The number a string of decimal digits denotes (leading zeros allowed). -/
def decValue (cs : List Char) : Nat := cs.foldl (fun n c => n * 10 + digitVal c) 0

/-- The loop of `strconv.ParseUint(s, 10, 64)` from accumulator `n`: a byte
that is no decimal digit is a syntax error, and leaving the `uint64` range is
a range error carrying the maximal value. -/
def parseUintLoop : List Char → Nat → Nat × Option NumError
  | [], n => (n, none)
  | c :: cs, n =>
    if !isDigit c then (0, some .ErrSyntax)
    else if 2 ^ 64 ≤ n * 10 then (2 ^ 64 - 1, some .ErrRange)
    else if 2 ^ 64 ≤ n * 10 + digitVal c then (2 ^ 64 - 1, some .ErrRange)
    else parseUintLoop cs (n * 10 + digitVal c)

/-- Go `strconv.ParseUint(s, 10, 64)`. -/
def ParseUint (s : List Char) : Nat × Option NumError :=
  if s = [] then (0, some .ErrSyntax) else parseUintLoop s 0

/-- Go `strconv.ParseInt(s, 10, 64)`. -/
def ParseInt (s : List Char) : Int × Option NumError :=
  match s with
  | [] => (0, some .ErrSyntax)
  | c :: rest =>
    let neg : Bool := decide (c = '-')
    let body := if c = '+' ∨ c = '-' then rest else s
    match ParseUint body with
    | (_, some .ErrSyntax) => (0, some .ErrSyntax)
    | (un, _) =>
      if !neg ∧ 2 ^ 63 ≤ un then (2 ^ 63 - 1, some .ErrRange)
      else if neg ∧ 2 ^ 63 < un then (-2 ^ 63, some .ErrRange)
      else (if neg then -(un : Int) else (un : Int), none)

/-- Decimal digits of `n`, most significant first, in front of `acc`; `fuel`
bounds the number of digits. -/
def formatBits : Nat → Nat → List Char → List Char
  | 0, _, acc => acc
  | fuel + 1, n, acc =>
    if n < 10 then digitChar n :: acc
    else formatBits fuel (n / 10) (digitChar (n % 10) :: acc)

/-- Go `strconv.FormatUint(n, 10)`. -/
def FormatUint (n : Nat) : List Char := formatBits (n + 1) n []

/-- Go `strconv.FormatInt(i, 10)`, which is also what `%d` prints. -/
def FormatInt (i : Int) : List Char :=
  if i < 0 then '-' :: FormatUint i.natAbs else FormatUint i.natAbs

end strconv

/-! ## `regexp`: the anchored patterns of the package -/

namespace regexp

open strconv

/-- A literal piece of a pattern: the rest of the input behind it. -/
def lit (p s : List Char) : Option (List Char) :=
  if p.isPrefixOf s then some (s.drop p.length) else none

/-- One character of a class. -/
def one (cls : Char → Bool) : List Char → Option (Char × List Char)
  | [] => none
  | c :: cs => if cls c then some (c, cs) else none

/-- A greedy `cls+`: the longest non-empty run of the class. In every pattern
below the piece that follows cannot start with a character of the class, so
the longest run is the only one that can lead to a match. -/
def many1 (cls : Char → Bool) (s : List Char) : Option (List Char × List Char) :=
  if (s.takeWhile cls).isEmpty then none else some (s.takeWhile cls, s.dropWhile cls)

/-- The assertion `$`: end of text. -/
def eot (s : List Char) : Option Unit := if s.isEmpty then some () else none

/-- Class `[0-5]`. -/
def is05 (c : Char) : Bool := decide (48 ≤ c.toNat ∧ c.toNat ≤ 53)

/-- Class `[0-1]`. -/
def is01 (c : Char) : Bool := decide (48 ≤ c.toNat ∧ c.toNat ≤ 49)

/-- Class `[a-zA-Z]`. -/
def isLetter (c : Char) : Bool :=
  decide ((97 ≤ c.toNat ∧ c.toNat ≤ 122) ∨ (65 ≤ c.toNat ∧ c.toNat ≤ 90))

/-- Class `[\w-]`, that is `[0-9A-Za-z_-]`. -/
def isWordOrDash (c : Char) : Bool := isDigit c || isLetter c || c == '_' || c == '-'

/-- The pattern `^\d+$` as used by `regexp.MatchString`. -/
def matchDecimal (s : List Char) : Bool :=
  match many1 isDigit s with
  | some (_, r) => (eot r).isSome
  | none => false

/-- The pattern `^STEAM_([0-5]):([0-1]):([0-9]+)$`: submatches 1, 2, 3. -/
def matchSteam2 (s : List Char) : Option (List Char × List Char × List Char) := do
  let r ← lit "STEAM_".data s
  let (x, r) ← one is05 r
  let r ← lit ":".data r
  let (y, r) ← one is01 r
  let r ← lit ":".data r
  let (z, r) ← many1 isDigit r
  eot r
  pure ([x], [y], z)

/-- The optional group `(:[0-9]+)?` followed by `]$`: the text of the group
(empty when it takes no part in the match). The group is tried first. -/
def matchSteam3Tail (r : List Char) : Option (List Char) :=
  (do
    let r1 ← lit ":".data r
    let (i, r2) ← many1 isDigit r1
    let r3 ← lit "]".data r2
    eot r3
    pure (':' :: i)) <|>
  (do
    let r3 ← lit "]".data r
    eot r3
    pure [])

/-- The pattern `^\[([a-zA-Z]):([0-5]):([0-9]+)(:[0-9]+)?]$`: submatches
1, 2, 3, 4. -/
def matchSteam3 (s : List Char) :
    Option (List Char × List Char × List Char × List Char) := do
  let r ← lit "[".data s
  let (l, r) ← one isLetter r
  let r ← lit ":".data r
  let (u, r) ← one is05 r
  let r ← lit ":".data r
  let (n, r) ← many1 isDigit r
  let i ← matchSteam3Tail r
  pure ([l], [u], n, i)

/-- The pattern
`^https://steamcommunity\.com/tradeoffer/new/\?partner=(\d+)&token=([\w-]+)$`:
submatches 1, 2. -/
def matchTradeUrl (s : List Char) : Option (List Char × List Char) := do
  let r ← lit "https://steamcommunity.com/tradeoffer/new/?partner=".data s
  let (p, r) ← many1 isDigit r
  let r ← lit "&token=".data r
  let (t, r) ← many1 isWordOrDash r
  eot r
  pure (p, t)

end regexp

/-! ## Package `types` -/

namespace types

def TYPE_INVALID : Nat := 0
def TYPE_INDIVIDUAL : Nat := 1
def TYPE_MULTISEAT : Nat := 2
def TYPE_GAMESERVER : Nat := 3
def TYPE_ANON_GAMESERVER : Nat := 4
def TYPE_PENDING : Nat := 5
def TYPE_CONTENT_SERVER : Nat := 6
def TYPE_CLAN : Nat := 7
def TYPE_CHAT : Nat := 8
def TYPE_P2P_SUPER_SEEDER : Nat := 9
def TYPE_ANON_USER : Nat := 10

/-- The map `TypeChars`, as the list of its entries in source order. -/
def TypeChars : List (Nat × String) :=
  [ (TYPE_INVALID, "I"),
    (TYPE_INDIVIDUAL, "U"),
    (TYPE_MULTISEAT, "M"),
    (TYPE_GAMESERVER, "G"),
    (TYPE_ANON_GAMESERVER, "A"),
    (TYPE_PENDING, "P"),
    (TYPE_CONTENT_SERVER, "C"),
    (TYPE_CLAN, "g"),
    (TYPE_CHAT, "T"),
    (TYPE_ANON_USER, "a") ]

/-- The method `func (t Type) String() string`. -/
def Type_String (t : Nat) : String :=
  match TypeChars.find? (fun kv => kv.1 == t) with
  | some kv => kv.2
  | none => "i"

/-- The loop of `Parse` over the entries of the map in the order `entries`
(Go leaves the iteration order of a map unspecified). -/
def ParseIn (entries : List (Nat × String)) (char : String) : Nat :=
  match entries.find? (fun kv => kv.2 == char) with
  | some kv => kv.1
  | none => TYPE_INVALID

/-- The function `func Parse(char string) Type`, traversing in source order. -/
def Parse (char : String) : Nat := ParseIn TypeChars char

end types

/-! ## Package `steamid` -/

namespace steamid

open strconv regexp types

def UNIVERSE_INVALID : Int := 0
def UNIVERSE_PUBLIC : Int := 1
def UNIVERSE_BETA : Int := 2
def UNIVERSE_INTERNAL : Int := 3
def UNIVERSE_DEV : Int := 4

def INSTANCE_ALL : Int := 0
def INSTANCE_DESKTOP : Int := 1
def INSTANCE_CONSOLE : Int := 2
def INSTANCE_WEB : Int := 3

def ACCOUNT_ID_MASK : Int := 0xFFFFFFFF
def ACCOUNT_INSTANCE_MASK : Int := 0x000FFFFF

def CHAT_INSTANCE_FLAGS_CLAN : Int := int64.shr (ACCOUNT_INSTANCE_MASK + 1) 1
def CHAT_INSTANCE_FLAGS_LOBBY : Int := int64.shr (ACCOUNT_INSTANCE_MASK + 1) 2
def CHAT_INSTANCE_FLAGS_MMSLOBBY : Int := int64.shr (ACCOUNT_INSTANCE_MASK + 1) 3

/-- The struct `SteamId`; `Type_` is the field `Type`. -/
structure SteamId where
  Universe : Int
  Type_ : Nat
  Instance : Int
  AccountId : Int
  Token : String
deriving DecidableEq

/-- The errors the package returns. -/
inductive Error where
  | emptyString
  | parseInt (e : NumError)
  | unknownFormat (input : String)
  | invalidTradeUrl
deriving DecidableEq

/-- The result of `NewSteamId`: the identifier, or the error. -/
inductive Result where
  | ok (id : SteamId)
  | error (e : Error)
deriving DecidableEq

/-- The legacy branch of `NewSteamId`, from the three submatches. -/
def fromSteam2 (id : SteamId) (m1 m2 m3 : List Char) : SteamId :=
  let universe_ := (ParseInt m1).1
  let mod := (ParseInt m2).1
  let accountid := (ParseInt m3).1
  let universe_ := if universe_ = 0 then UNIVERSE_PUBLIC else universe_
  { id with
    Universe := universe_
    Type_ := TYPE_INDIVIDUAL
    Instance := INSTANCE_DESKTOP
    AccountId := int64.add (int64.mul accountid 2) mod }

/-- The bracket branch of `NewSteamId`, from the four submatches. -/
def fromSteam3 (id : SteamId) (m1 m2 m3 m4 : List Char) : SteamId :=
  let typeChar : String := ⟨m1⟩
  let universe_ := (ParseInt m2).1
  let accountid := (ParseInt m3).1
  let instanceid := m4
  let id := { id with Universe := universe_, AccountId := accountid }
  let id := if instanceid ≠ [] then { id with Instance := (ParseInt (instanceid.drop 1)).1 } else id
  if typeChar = "U" then
    let id := { id with Type_ := TYPE_INDIVIDUAL }
    if instanceid ≠ [] then { id with Instance := INSTANCE_DESKTOP } else id
  else if typeChar = "c" then
    { id with Instance := int64.or id.Instance CHAT_INSTANCE_FLAGS_CLAN, Type_ := TYPE_CLAN }
  else if typeChar = "L" then
    { id with Instance := int64.or id.Instance CHAT_INSTANCE_FLAGS_LOBBY, Type_ := TYPE_CHAT }
  else
    { id with Type_ := Parse typeChar }

/-- The function `NewSteamId`. -/
def NewSteamId (input : String) : Result :=
  if input = "" then .error .emptyString
  else
    let id : SteamId :=
      { Universe := UNIVERSE_INVALID, Type_ := TYPE_INVALID, Instance := INSTANCE_ALL,
        AccountId := 0, Token := "" }
    if matchDecimal input.data then
      match ParseInt input.data with
      | (_, some e) => .error (.parseInt e)
      | (num, none) =>
        .ok { id with
          AccountId := int64.and num ACCOUNT_ID_MASK
          Instance := int64.and (int64.shr num 32) ACCOUNT_INSTANCE_MASK
          Type_ := int64.toU64 (int64.and (int64.shr num 52) 0xF)
          Universe := int64.shr num 56 }
    else
      match matchSteam2 input.data with
      | some (m1, m2, m3) => .ok (fromSteam2 id m1 m2 m3)
      | none =>
        match matchSteam3 input.data with
        | some (m1, m2, m3, m4) => .ok (fromSteam3 id m1 m2 m3 m4)
        | none => .error (.unknownFormat input)

/-- The fields of the packed 64-bit form `n`, as the specification lays them
out: account number in the low 32 bits, instance in bits 32-51, kind in bits
52-55, universe in bits 56-63. -/
def unpack (n : Nat) : SteamId :=
  { Universe := ((n / 2 ^ 56 : Nat) : Int), Type_ := n / 2 ^ 52 % 16,
    Instance := ((n / 2 ^ 32 % 2 ^ 20 : Nat) : Int), AccountId := ((n % 2 ^ 32 : Nat) : Int),
    Token := "" }

/-- The pattern "all decimal digits": a non-empty run of ASCII digits. -/
def allDigits (s : List Char) : Prop := s ≠ [] ∧ ∀ c ∈ s, isDigit c = true

/-- The text `STEAM_X:Y:Z`. -/
def legacyText (x y : Char) (z : List Char) : List Char :=
  "STEAM_".data ++ [x] ++ ":".data ++ [y] ++ ":".data ++ z

/-- The text `[L:U:N]`. -/
def bracketText (l u : Char) (n : List Char) : List Char :=
  "[".data ++ [l] ++ ":".data ++ [u] ++ ":".data ++ n ++ "]".data

/-- The text `[L:U:N:I]`. -/
def bracketInstanceText (l u : Char) (n i : List Char) : List Char :=
  "[".data ++ [l] ++ ":".data ++ [u] ++ ":".data ++ n ++ ":".data ++ i ++ "]".data

/-- The pattern `STEAM_[0-5]:[0-1]:digits`. -/
def legacyForm (s : List Char) : Prop :=
  ∃ x y z, is05 x = true ∧ is01 y = true ∧ allDigits z ∧ s = legacyText x y z

/-- The pattern `[letter:[0-5]:digits(:digits)?]`. -/
def bracketForm (s : List Char) : Prop :=
  ∃ l u n, isLetter l = true ∧ is05 u = true ∧ allDigits n ∧
    (s = bracketText l u n ∨ ∃ i, allDigits i ∧ s = bracketInstanceText l u n i)

/-- The validity rules as the specification lists them: kind in 1..10,
universe in 1..4, and the kind-specific rules for Individual, Clan and
GameServer. -/
def validSpec (id : SteamId) : Prop :=
  (1 ≤ id.Type_ ∧ id.Type_ ≤ 10) ∧ (1 ≤ id.Universe ∧ id.Universe ≤ 4) ∧
  (id.Type_ = TYPE_INDIVIDUAL → id.AccountId ≠ 0 ∧ id.Instance ≤ 3) ∧
  (id.Type_ = TYPE_CLAN → id.AccountId ≠ 0 ∧ id.Instance = 0) ∧
  (id.Type_ = TYPE_GAMESERVER → id.AccountId ≠ 0)

/-- The widths of the two wide fields: account number in 32 bits, instance in
20 bits. -/
def wideFieldsFit (id : SteamId) : Prop :=
  0 ≤ id.AccountId ∧ id.AccountId < 2 ^ 32 ∧ 0 ≤ id.Instance ∧ id.Instance < 2 ^ 20

/-- Bit `k` of an `int64` (two's complement) is set. -/
def hasBit (x : Int) (k : Nat) : Bool := decide (x / 2 ^ k % 2 = 1)

/-- The bracket rendering as the specification defines it: the letter is `c`
with the Clan flag bit, else `L` with the Lobby flag bit, else the registry code
of the kind; the instance is written for AnonGameServer, Multiseat and for an
Individual whose instance is not Desktop. -/
def renderBracketSpec (id : SteamId) : String :=
  let letter : String :=
    if hasBit id.Instance 19 then "c"
    else if hasBit id.Instance 18 then "L"
    else Type_String id.Type_
  if id.Type_ = TYPE_ANON_GAMESERVER ∨ id.Type_ = TYPE_MULTISEAT ∨
      (id.Type_ = TYPE_INDIVIDUAL ∧ id.Instance ≠ INSTANCE_DESKTOP) then
    ⟨"[".data ++ letter.data ++ ":".data ++ FormatInt id.Universe ++ ":".data
      ++ FormatInt id.AccountId ++ ":".data ++ FormatInt id.Instance ++ "]".data⟩
  else
    ⟨"[".data ++ letter.data ++ ":".data ++ FormatInt id.Universe ++ ":".data
      ++ FormatInt id.AccountId ++ "]".data⟩

/-- A bracket-form text whose letter is `l`: `[l:U:N]` or `[l:U:N:I]`. -/
def bracketLetter (s : List Char) (l : Char) : Prop :=
  ∃ u n, is05 u = true ∧ allDigits n ∧
    (s = bracketText l u n ∨ ∃ i, allDigits i ∧ s = bracketInstanceText l u n i)

/-- The pattern of a trade URL: the fixed prefix, one or more decimal digits,
`&token=`, and one or more characters of `[0-9A-Za-z_-]`. -/
def tradeUrlForm (s : List Char) : Prop :=
  ∃ p t, allDigits p ∧ t ≠ [] ∧ (∀ c ∈ t, isWordOrDash c = true) ∧
    s = "https://steamcommunity.com/tradeoffer/new/?partner=".data ++ p
          ++ "&token=".data ++ t

/-- The identifier `NewSteamId` starts from. -/
def blank : SteamId :=
  { Universe := UNIVERSE_INVALID, Type_ := TYPE_INVALID, Instance := INSTANCE_ALL,
    AccountId := 0, Token := "" }

/-- The method `FromIndividualAccountID`: the receiver after the call. -/
def FromIndividualAccountID (_id : SteamId) (accountid : Int) : SteamId :=
  { Universe := UNIVERSE_PUBLIC, Type_ := TYPE_INDIVIDUAL, Instance := INSTANCE_DESKTOP,
    AccountId := accountid, Token := "" }

/-- The method `FromTradeUrl`: the receiver after the call, and the error
returned (`none` is Go's `nil`). -/
def FromTradeUrl (id : SteamId) (url : String) : SteamId × Option Error :=
  match matchTradeUrl url.data with
  | some (m1, m2) =>
    let accountid := (ParseInt m1).1
    let token : String := ⟨m2⟩
    let id := FromIndividualAccountID id accountid
    ({ id with Token := token }, none)
  | none => (id, some .invalidTradeUrl)

/-- The method `IsValid`. -/
def IsValid (id : SteamId) : Bool :=
  if id.Type_ ≤ TYPE_INVALID ∨ id.Type_ > TYPE_ANON_USER then false
  else if id.Universe ≤ UNIVERSE_INVALID ∨ id.Universe > UNIVERSE_DEV then false
  else if id.Type_ = TYPE_INDIVIDUAL ∧ (id.AccountId = 0 ∨ id.Instance > INSTANCE_WEB) then false
  else if id.Type_ = TYPE_CLAN ∧ (id.AccountId = 0 ∨ id.Instance ≠ INSTANCE_ALL) then false
  else if id.Type_ = TYPE_GAMESERVER ∧ id.AccountId = 0 then false
  else true

/-- The method `IsValidIndividual`. -/
def IsValidIndividual (id : SteamId) : Bool :=
  decide (id.Universe = UNIVERSE_PUBLIC) && decide (id.Type_ = TYPE_INDIVIDUAL) &&
    decide (id.Instance = INSTANCE_DESKTOP) && IsValid id

/-- The method `IsGroupChat`. -/
def IsGroupChat (id : SteamId) : Bool :=
  decide (id.Type_ = TYPE_CHAT) && decide (int64.and id.Instance CHAT_INSTANCE_FLAGS_CLAN > 0)

/-- The method `IsLobby`. -/
def IsLobby (id : SteamId) : Bool :=
  decide (id.Type_ = TYPE_CHAT) &&
    (decide (int64.and id.Instance CHAT_INSTANCE_FLAGS_LOBBY > 0) ||
      decide (int64.and id.Instance CHAT_INSTANCE_FLAGS_MMSLOBBY > 0))

/-- The method `GetSteam2RenderedID`; `newFormats` is the variadic argument. -/
def GetSteam2RenderedID (id : SteamId) (newFormats : List Bool) : String :=
  let newFormat : Bool :=
    match newFormats with
    | b :: _ => b
    | [] => false
  if id.Type_ ≠ TYPE_INDIVIDUAL then ""
  else
    let universe_ := id.Universe
    let universe_ := if !newFormat ∧ universe_ = 1 then 0 else universe_
    ⟨"STEAM_".data ++ FormatInt universe_ ++ ":".data ++ FormatInt (int64.and id.AccountId 1)
      ++ ":".data ++ FormatInt (int64.floorHalfViaFloat64 id.AccountId)⟩

/-- The method `GetSteam3RenderedID`. -/
def GetSteam3RenderedID (id : SteamId) : String :=
  let typeChar := Type_String id.Type_
  let typeChar :=
    if int64.and id.Instance CHAT_INSTANCE_FLAGS_CLAN > 0 then "c"
    else if int64.and id.Instance CHAT_INSTANCE_FLAGS_LOBBY > 0 then "L"
    else typeChar
  let shouldRenderInstance : Bool :=
    decide (id.Type_ = TYPE_ANON_GAMESERVER) || decide (id.Type_ = TYPE_MULTISEAT) ||
      (decide (id.Type_ = TYPE_INDIVIDUAL) && decide (id.Instance ≠ INSTANCE_DESKTOP))
  if shouldRenderInstance then
    ⟨"[".data ++ typeChar.data ++ ":".data ++ FormatInt id.Universe ++ ":".data
      ++ FormatInt id.AccountId ++ ":".data ++ FormatInt id.Instance ++ "]".data⟩
  else
    ⟨"[".data ++ typeChar.data ++ ":".data ++ FormatInt id.Universe ++ ":".data
      ++ FormatInt id.AccountId ++ "]".data⟩

/-- The method `GetBigIntId`. -/
def GetBigIntId (id : SteamId) : Int :=
  let universe_ := int64.shl id.Universe 56
  let typeTmp := int64.shl (int64.ofU64 id.Type_) 52
  let instance_ := int64.shl id.Instance 32
  let accountId := id.AccountId
  int64.or (int64.or (int64.or universe_ typeTmp) instance_) accountId

/-- The method `String`. -/
def String_ (id : SteamId) : String := ⟨FormatInt (GetBigIntId id)⟩

/-- The method `GetSteamID64`. -/
def GetSteamID64 (id : SteamId) : String := String_ id

end steamid

/-! ## Decimal text: parsing -/

namespace strconv

theorem toNat_digitChar (d : Nat) (h : d < 10) : (digitChar d).toNat = 48 + d := by
  interval_cases d <;> rfl

theorem digitVal_digitChar (d : Nat) (h : d < 10) : digitVal (digitChar d) = d := by
  unfold digitVal
  rw [toNat_digitChar d h]; omega

theorem isDigit_digitChar (d : Nat) (h : d < 10) : isDigit (digitChar d) = true := by
  unfold isDigit
  rw [toNat_digitChar d h]; simp; omega

theorem isDigit_iff (c : Char) : isDigit c = true ↔ 48 ≤ c.toNat ∧ c.toNat ≤ 57 := by
  unfold isDigit; simp

theorem digitChar_digitVal (c : Char) (h : isDigit c = true) : digitChar (digitVal c) = c := by
  rw [isDigit_iff] at h
  unfold digitChar digitVal
  have : 48 + (c.toNat - 48) = c.toNat := by omega
  rw [this, Char.ofNat_toNat]

theorem digitVal_lt (c : Char) (h : isDigit c = true) : digitVal c < 10 := by
  rw [isDigit_iff] at h
  unfold digitVal
  omega

/-- The value of a digit string read from accumulator `n`. -/
theorem foldl_decStep_ge (cs : List Char) (n : Nat) :
    n ≤ cs.foldl (fun n c => n * 10 + digitVal c) n := by
  induction cs generalizing n with
  | nil => simp
  | cons c cs ih =>
    simp only [List.foldl_cons]
    exact le_trans (by omega) (ih _)

theorem decValue_append_singleton (cs : List Char) (c : Char) :
    decValue (cs ++ [c]) = decValue cs * 10 + digitVal c := by
  simp [decValue, List.foldl_append]

theorem parseUintLoop_digits (cs : List Char) (hd : ∀ c ∈ cs, isDigit c = true) (n : Nat)
    (hn : n < 2 ^ 64) :
    parseUintLoop cs n =
      if cs.foldl (fun n c => n * 10 + digitVal c) n < 2 ^ 64
      then (cs.foldl (fun n c => n * 10 + digitVal c) n, none)
      else (2 ^ 64 - 1, some .ErrRange) := by
  induction cs generalizing n with
  | nil =>
    simp only [parseUintLoop, List.foldl_nil]
    rw [if_pos hn]
  | cons c cs ih =>
    have hc : isDigit c = true := hd c (List.mem_cons_self _ _)
    have hcs : ∀ c ∈ cs, isDigit c = true := fun x hx => hd x (List.mem_cons_of_mem _ hx)
    have hge := foldl_decStep_ge cs (n * 10 + digitVal c)
    simp only [parseUintLoop, hc, Bool.not_true, List.foldl_cons]
    rw [if_neg (by decide)]
    by_cases h1 : 2 ^ 64 ≤ n * 10
    · rw [if_pos h1, if_neg (by omega)]
    · rw [if_neg h1]
      by_cases h2 : 2 ^ 64 ≤ n * 10 + digitVal c
      · rw [if_pos h2, if_neg (by omega)]
      · rw [if_neg h2]
        exact ih hcs _ (by omega)

theorem ParseUint_digits (cs : List Char) (hne : cs ≠ []) (hd : ∀ c ∈ cs, isDigit c = true) :
    ParseUint cs =
      if decValue cs < 2 ^ 64 then (decValue cs, none) else (2 ^ 64 - 1, some .ErrRange) := by
  unfold ParseUint decValue
  rw [if_neg hne]
  exact parseUintLoop_digits cs hd 0 (by norm_num)

theorem ParseInt_digits (cs : List Char) (hne : cs ≠ []) (hd : ∀ c ∈ cs, isDigit c = true) :
    ParseInt cs =
      if decValue cs < 2 ^ 63 then ((decValue cs : Int), none)
      else (2 ^ 63 - 1, some .ErrRange) := by
  cases cs with
  | nil => exact absurd rfl hne
  | cons c rest =>
    have hc : isDigit c = true := hd c (List.mem_cons_self _ _)
    have hplus : c ≠ '+' := by rintro rfl; revert hc; decide
    have hminus : c ≠ '-' := by rintro rfl; revert hc; decide
    simp only [ParseInt, hplus, hminus, or_self, if_false, decide_False]
    rw [ParseUint_digits (c :: rest) hne hd]
    by_cases h64 : decValue (c :: rest) < 2 ^ 64
    · rw [if_pos h64]
      by_cases h63 : decValue (c :: rest) < 2 ^ 63
      · rw [if_pos h63]
        simp only [Bool.not_false, true_and, Bool.false_eq_true, false_and, if_false]
        rw [if_neg (by omega)]
      · rw [if_neg h63]
        simp only [Bool.not_false, true_and, Bool.false_eq_true, false_and, if_false]
        rw [if_pos (by omega)]
    · rw [if_neg h64]
      have h63 : ¬ decValue (c :: rest) < 2 ^ 63 := by omega
      rw [if_neg h63]
      simp only [Bool.not_false, true_and, Bool.false_eq_true, false_and, if_false]
      rw [if_pos (by norm_num)]

end strconv

/-! ## Decimal text: formatting -/

namespace strconv

theorem formatBits_acc (fuel : Nat) : ∀ (n : Nat) (acc : List Char),
    formatBits fuel n acc = formatBits fuel n [] ++ acc := by
  induction fuel with
  | zero => intro n acc; rfl
  | succ fuel ih =>
    intro n acc
    by_cases h10 : n < 10
    · simp only [formatBits, if_pos h10, List.singleton_append]
    · simp only [formatBits, if_neg h10]
      rw [ih (n / 10) (digitChar (n % 10) :: acc), ih (n / 10) [digitChar (n % 10)]]
      simp

theorem formatBits_fuel (f1 : Nat) : ∀ (f2 n : Nat) (acc : List Char), n < f1 → n < f2 →
    formatBits f1 n acc = formatBits f2 n acc := by
  induction f1 with
  | zero => intro f2 n acc h; omega
  | succ f1 ih =>
    intro f2 n acc h1 h2
    cases f2 with
    | zero => omega
    | succ f2 =>
      by_cases h10 : n < 10
      · simp only [formatBits, if_pos h10]
      · simp only [formatBits, if_neg h10]
        exact ih f2 (n / 10) _ (by omega) (by omega)

theorem formatBits_eq (fuel n : Nat) (acc : List Char) (h : n < fuel) :
    formatBits fuel n acc = formatBits (n + 1) n [] ++ acc := by
  rw [formatBits_acc fuel n acc, formatBits_fuel fuel (n + 1) n [] h (by omega)]

theorem FormatUint_lt_ten (n : Nat) (h : n < 10) : FormatUint n = [digitChar n] := by
  simp only [FormatUint, formatBits, if_pos h]

theorem FormatUint_ge_ten (n : Nat) (h : 10 ≤ n) :
    FormatUint n = FormatUint (n / 10) ++ [digitChar (n % 10)] := by
  have h10 : ¬ n < 10 := by omega
  simp only [FormatUint, formatBits, if_neg h10]
  exact formatBits_eq n (n / 10) _ (by omega)

theorem FormatUint_ne_nil (n : Nat) : FormatUint n ≠ [] := by
  by_cases h : n < 10
  · rw [FormatUint_lt_ten n h]; simp
  · rw [FormatUint_ge_ten n (by omega)]; simp

theorem FormatUint_digits (n : Nat) : ∀ c ∈ FormatUint n, isDigit c = true := by
  induction n using Nat.strong_induction_on with
  | _ n ih =>
    by_cases h : n < 10
    · rw [FormatUint_lt_ten n h]
      intro c hc
      rw [List.mem_singleton] at hc
      rw [hc]; exact isDigit_digitChar n h
    · rw [FormatUint_ge_ten n (by omega)]
      intro c hc
      rw [List.mem_append, List.mem_singleton] at hc
      rcases hc with hc | hc
      · exact ih (n / 10) (by omega) c hc
      · rw [hc]; exact isDigit_digitChar _ (Nat.mod_lt _ (by norm_num))

theorem decValue_FormatUint (n : Nat) : decValue (FormatUint n) = n := by
  induction n using Nat.strong_induction_on with
  | _ n ih =>
    by_cases h : n < 10
    · rw [FormatUint_lt_ten n h]
      simp [decValue, digitVal_digitChar n h]
    · rw [FormatUint_ge_ten n (by omega), decValue_append_singleton, ih (n / 10) (by omega),
        digitVal_digitChar _ (Nat.mod_lt _ (by norm_num))]
      omega

/-- A digit string without a superfluous leading zero. -/
theorem decValue_pos (cs : List Char) (hd : ∀ c ∈ cs, isDigit c = true) (c0 : Char)
    (h0 : cs.head? = some c0) (hc0 : c0 ≠ '0') : 0 < decValue cs := by
  cases cs with
  | nil => simp at h0
  | cons c rest =>
    simp only [List.head?_cons, Option.some.injEq] at h0
    subst h0
    have hc := hd c (List.mem_cons_self _ _)
    have h1 : 0 < digitVal c := by
      rw [isDigit_iff] at hc
      unfold digitVal
      by_contra hcon
      have h48 : c.toNat = 48 := by omega
      apply hc0
      rw [← Char.ofNat_toNat c, h48]
    have := foldl_decStep_ge rest (0 * 10 + digitVal c)
    simp only [decValue, List.foldl_cons]
    omega

theorem FormatUint_decValue (cs : List Char) (hne : cs ≠ [])
    (hd : ∀ c ∈ cs, isDigit c = true) (hcanon : cs = ['0'] ∨ cs.head? ≠ some '0') :
    FormatUint (decValue cs) = cs := by
  induction cs using List.reverseRecOn with
  | nil => exact absurd rfl hne
  | append_singleton init c ih =>
    have hc : isDigit c = true := hd c (by simp)
    have hinit : ∀ x ∈ init, isDigit x = true := fun x hx => hd x (by simp [hx])
    rw [decValue_append_singleton]
    cases init with
    | nil =>
      simp only [decValue, List.foldl_nil, Nat.zero_mul, Nat.zero_add, List.nil_append]
      rw [FormatUint_lt_ten _ (digitVal_lt c hc), digitChar_digitVal c hc]
    | cons a rest =>
      have ha0 : a ≠ '0' := by
        rcases hcanon with h | h
        · exfalso; simp at h
        · intro h0; apply h; simp [h0]
      have hpos := decValue_pos (a :: rest) hinit a rfl ha0
      have hlt := digitVal_lt c hc
      rw [FormatUint_ge_ten _ (by omega)]
      have e1 : (decValue (a :: rest) * 10 + digitVal c) / 10 = decValue (a :: rest) := by omega
      have e2 : (decValue (a :: rest) * 10 + digitVal c) % 10 = digitVal c := by omega
      rw [e1, e2, digitChar_digitVal c hc,
        ih (by simp) hinit (Or.inr (by simp [ha0]))]

theorem FormatInt_natCast (n : Nat) : FormatInt (n : Int) = FormatUint n := by
  unfold FormatInt
  rw [if_neg (by omega)]
  rfl

end strconv

/-! ## The anchored patterns -/

namespace regexp

open strconv

theorem lit_eq_some (p s r : List Char) : lit p s = some r ↔ s = p ++ r := by
  unfold lit
  constructor
  · intro h
    split at h
    · rename_i hp
      rw [List.isPrefixOf_iff_prefix] at hp
      obtain ⟨t, rfl⟩ := hp
      simp only [List.drop_left, Option.some.injEq] at h
      rw [h]
    · exact absurd h (by simp)
  · rintro rfl
    have hp : p.isPrefixOf (p ++ r) = true := by
      rw [List.isPrefixOf_iff_prefix]; exact List.prefix_append p r
    rw [if_pos hp, List.drop_left]

theorem one_eq_some (cls : Char → Bool) (s : List Char) (c : Char) (r : List Char) :
    one cls s = some (c, r) ↔ s = c :: r ∧ cls c = true := by
  cases s with
  | nil => simp [one]
  | cons a t =>
    by_cases h : cls a = true
    · simp only [one, if_pos h, Option.some.injEq, Prod.mk.injEq, List.cons.injEq]
      constructor
      · rintro ⟨rfl, rfl⟩; exact ⟨⟨rfl, rfl⟩, h⟩
      · rintro ⟨⟨rfl, rfl⟩, _⟩; exact ⟨rfl, rfl⟩
    · simp only [one, if_neg h, List.cons.injEq]
      constructor
      · intro h'; exact absurd h' (by simp)
      · rintro ⟨⟨rfl, rfl⟩, h'⟩; exact absurd h' h

theorem takeWhile_run (cls : Char → Bool) (m r : List Char) (hm : ∀ c ∈ m, cls c = true)
    (hr : ∀ c, r.head? = some c → cls c = false) :
    (m ++ r).takeWhile cls = m ∧ (m ++ r).dropWhile cls = r := by
  induction m with
  | nil =>
    cases r with
    | nil => simp
    | cons a t =>
      have ha : cls a = false := hr a rfl
      simp [List.takeWhile, List.dropWhile, ha]
  | cons a t ih =>
    have ha : cls a = true := hm a (List.mem_cons_self _ _)
    have ht := ih (fun c hc => hm c (List.mem_cons_of_mem _ hc))
    simp [List.takeWhile, List.dropWhile, ha, ht.1, ht.2]

theorem dropWhile_head (cls : Char → Bool) (s : List Char) (c : Char)
    (h : (s.dropWhile cls).head? = some c) : cls c = false := by
  induction s with
  | nil => simp at h
  | cons a t ih =>
    by_cases ha : cls a = true
    · rw [List.dropWhile_cons_of_pos ha] at h; exact ih h
    · rw [List.dropWhile_cons_of_neg ha] at h
      simp only [List.head?_cons, Option.some.injEq] at h
      subst h; simpa using ha

theorem many1_eq_some (cls : Char → Bool) (s m r : List Char) :
    many1 cls s = some (m, r) ↔
      s = m ++ r ∧ m ≠ [] ∧ (∀ c ∈ m, cls c = true) ∧
        (∀ c, r.head? = some c → cls c = false) := by
  unfold many1
  constructor
  · intro h
    split at h
    · exact absurd h (by simp)
    · rename_i hne
      simp only [Option.some.injEq, Prod.mk.injEq] at h
      obtain ⟨rfl, rfl⟩ := h
      refine ⟨(List.takeWhile_append_dropWhile cls s).symm, ?_, ?_, ?_⟩
      · intro h0; apply hne; rw [h0]; rfl
      · intro c hc; exact List.mem_takeWhile_imp hc
      · intro c hc; exact dropWhile_head cls s c hc
  · rintro ⟨rfl, hne, hm, hr⟩
    obtain ⟨h1, h2⟩ := takeWhile_run cls m r hm hr
    rw [h1, h2]
    have : m.isEmpty = false := by
      cases m with
      | nil => exact absurd rfl hne
      | cons a t => rfl
    simp [this]

theorem eot_eq_some (r : List Char) (u : Unit) : eot r = some u ↔ r = [] := by
  unfold eot
  cases r <;> simp

theorem matchDecimal_iff (s : List Char) :
    matchDecimal s = true ↔ s ≠ [] ∧ ∀ c ∈ s, isDigit c = true := by
  unfold matchDecimal
  constructor
  · intro h
    split at h
    · rename_i m r hm
      rw [Option.isSome_iff_exists] at h
      obtain ⟨u, hu⟩ := h
      rw [eot_eq_some] at hu
      rw [many1_eq_some] at hm
      obtain ⟨rfl, hne, hd, _⟩ := hm
      subst hu
      simp only [List.append_nil]
      exact ⟨hne, hd⟩
    · exact absurd h (by simp)
  · rintro ⟨hne, hd⟩
    have hm : many1 isDigit s = some (s, []) := by
      rw [many1_eq_some]
      exact ⟨by simp, hne, hd, by simp⟩
    rw [hm]
    rfl

end regexp

namespace regexp

open strconv

theorem matchSteam2_eq_some (s m1 m2 m3 : List Char) :
    matchSteam2 s = some (m1, m2, m3) ↔
      ∃ x y, m1 = [x] ∧ m2 = [y] ∧ is05 x = true ∧ is01 y = true ∧ m3 ≠ [] ∧
        (∀ c ∈ m3, isDigit c = true) ∧
        s = "STEAM_".data ++ x :: ':' :: y :: ':' :: m3 := by
  simp only [matchSteam2, bind, Option.bind_eq_some, Prod.exists, lit_eq_some, one_eq_some,
    many1_eq_some, eot_eq_some, pure, Option.some.injEq, Prod.mk.injEq]
  constructor
  · rintro ⟨r1, rfl, x, r2, ⟨rfl, hx⟩, r3, rfl, y, r4, ⟨rfl, hy⟩, r5, rfl, z, r6,
      ⟨rfl, hne, hd, _⟩, _, rfl, rfl, rfl, rfl⟩
    exact ⟨x, y, rfl, rfl, hx, hy, hne, hd, by simp⟩
  · rintro ⟨x, y, rfl, rfl, hx, hy, hne, hd, rfl⟩
    exact ⟨_, rfl, x, _, ⟨rfl, hx⟩, _, rfl, y, _, ⟨rfl, hy⟩, _, rfl, m3, [],
      ⟨by simp, hne, hd, by simp⟩, (), rfl, rfl, rfl, rfl⟩

theorem orElse_eq_some {α : Type} (a b : Option α) (m : α) :
    (a <|> b) = some m ↔ a = some m ∨ (a = none ∧ b = some m) := by
  cases a <;> simp [HOrElse.hOrElse, OrElse.orElse, Option.orElse]

theorem matchSteam3Tail_eq_some (r m4 : List Char) :
    matchSteam3Tail r = some m4 ↔
      (m4 = [] ∧ r = [']']) ∨
        ∃ i, i ≠ [] ∧ (∀ c ∈ i, isDigit c = true) ∧ m4 = ':' :: i ∧ r = ':' :: i ++ [']'] := by
  unfold matchSteam3Tail
  rw [orElse_eq_some]
  constructor
  · rintro (h | ⟨_, h⟩)
    · right
      simp only [bind, Option.bind_eq_some, Prod.exists, lit_eq_some, many1_eq_some,
        eot_eq_some, pure, Option.some.injEq] at h
      obtain ⟨r1, rfl, i, r2, ⟨rfl, hne, hd, _⟩, r3, rfl, _, rfl, rfl⟩ := h
      exact ⟨i, hne, hd, rfl, by simp⟩
    · left
      simp only [bind, Option.bind_eq_some, lit_eq_some, eot_eq_some, pure,
        Option.some.injEq] at h
      obtain ⟨r3, rfl, _, rfl, rfl⟩ := h
      exact ⟨rfl, rfl⟩
  · rintro (⟨rfl, rfl⟩ | ⟨i, hne, hd, rfl, rfl⟩)
    · right
      exact ⟨rfl, rfl⟩
    · left
      simp only [bind, Option.bind_eq_some, Prod.exists, lit_eq_some, many1_eq_some,
        eot_eq_some, pure, Option.some.injEq]
      refine ⟨i ++ [']'], rfl, i, [']'], ⟨rfl, hne, hd, ?_⟩, [], rfl, (), rfl, rfl⟩
      intro c hc
      simp only [List.head?_cons, Option.some.injEq] at hc
      subst hc; rfl

theorem matchSteam3_eq_some (s m1 m2 m3 m4 : List Char) :
    matchSteam3 s = some (m1, m2, m3, m4) ↔
      ∃ l u, m1 = [l] ∧ m2 = [u] ∧ isLetter l = true ∧ is05 u = true ∧ m3 ≠ [] ∧
        (∀ c ∈ m3, isDigit c = true) ∧
        ((m4 = [] ∧ s = '[' :: l :: ':' :: u :: ':' :: m3 ++ [']']) ∨
          ∃ i, i ≠ [] ∧ (∀ c ∈ i, isDigit c = true) ∧ m4 = ':' :: i ∧
            s = '[' :: l :: ':' :: u :: ':' :: m3 ++ ':' :: i ++ [']']) := by
  simp only [matchSteam3, bind, Option.bind_eq_some, Prod.exists, lit_eq_some, one_eq_some,
    many1_eq_some, matchSteam3Tail_eq_some, pure, Option.some.injEq, Prod.mk.injEq]
  constructor
  · rintro ⟨r1, rfl, l, r2, ⟨rfl, hl⟩, r3, rfl, u, r4, ⟨rfl, hu⟩, r5, rfl, n, r6,
      ⟨rfl, hne, hd, _⟩, m, hm, rfl, rfl, rfl, rfl⟩
    refine ⟨l, u, rfl, rfl, hl, hu, hne, hd, ?_⟩
    rcases hm with ⟨rfl, rfl⟩ | ⟨i, hi, hdi, rfl, rfl⟩
    · left; exact ⟨rfl, by simp⟩
    · right; exact ⟨i, hi, hdi, rfl, by simp⟩
  · rintro ⟨l, u, rfl, rfl, hl, hu, hne, hd, h⟩
    rcases h with ⟨rfl, rfl⟩ | ⟨i, hi, hdi, rfl, rfl⟩
    · refine ⟨_, rfl, l, _, ⟨rfl, hl⟩, _, rfl, u, _, ⟨rfl, hu⟩, _, rfl, m3, [']'],
        ⟨by simp, hne, hd, ?_⟩, [], Or.inl ⟨rfl, rfl⟩, rfl, rfl, rfl, rfl⟩
      intro c hc
      simp only [List.head?_cons, Option.some.injEq] at hc
      subst hc; rfl
    · refine ⟨_, rfl, l, _, ⟨rfl, hl⟩, _, rfl, u, _, ⟨rfl, hu⟩, _, rfl, m3, ':' :: i ++ [']'],
        ⟨by simp, hne, hd, ?_⟩, ':' :: i, Or.inr ⟨i, hi, hdi, rfl, rfl⟩, rfl, rfl, rfl, rfl⟩
      intro c hc
      simp only [List.cons_append, List.head?_cons, Option.some.injEq] at hc
      subst hc; rfl

theorem isWordOrDash_amp : isWordOrDash '&' = false := by decide

theorem matchTradeUrl_eq_some (s m1 m2 : List Char) :
    matchTradeUrl s = some (m1, m2) ↔
      m1 ≠ [] ∧ (∀ c ∈ m1, isDigit c = true) ∧ m2 ≠ [] ∧ (∀ c ∈ m2, isWordOrDash c = true) ∧
        s = "https://steamcommunity.com/tradeoffer/new/?partner=".data ++ m1
              ++ "&token=".data ++ m2 := by
  simp only [matchTradeUrl, bind, Option.bind_eq_some, Prod.exists, lit_eq_some,
    many1_eq_some, eot_eq_some, pure, Option.some.injEq, Prod.mk.injEq]
  constructor
  · rintro ⟨r1, rfl, p, r2, ⟨rfl, hp, hdp, _⟩, r3, rfl, t, r4, ⟨rfl, ht, hdt, _⟩, _, rfl,
      rfl, rfl⟩
    exact ⟨hp, hdp, ht, hdt, by simp⟩
  · rintro ⟨hp, hdp, ht, hdt, rfl⟩
    refine ⟨_, by simp only [List.append_assoc], m1, "&token=".data ++ m2,
      ⟨rfl, hp, hdp, ?_⟩, m2, rfl, m2, [], ⟨by simp, ht, hdt, by simp⟩, (), rfl, rfl, rfl⟩
    intro c hc
    simp only [List.cons_append, List.head?_cons, Option.some.injEq] at hc
    subst hc; rfl

end regexp

/-! ## 64-bit arithmetic on values in range -/

namespace int64

theorem toU64_natCast (n : Nat) (h : n < 2 ^ 64) : toU64 (n : Int) = n := by
  unfold toU64; omega

theorem ofU64_lt (n : Nat) (h : n < 2 ^ 63) : ofU64 n = (n : Int) := by
  unfold ofU64
  have h1 : n % 2 ^ 64 = n := Nat.mod_eq_of_lt (by omega)
  rw [h1, if_pos h]

theorem wrap_of_range (x : Int) (h1 : -2 ^ 63 ≤ x) (h2 : x < 2 ^ 63) : wrap x = x := by
  unfold wrap ofU64 toU64
  split_ifs <;> omega

theorem and_natCast (a b : Nat) (ha : a < 2 ^ 63) (hb : b < 2 ^ 64) :
    int64.and (a : Int) (b : Int) = ((a &&& b : Nat) : Int) := by
  unfold int64.and
  rw [toU64_natCast a (by omega), toU64_natCast b hb]
  exact ofU64_lt _ (lt_of_le_of_lt Nat.and_le_left ha)

theorem or_natCast (a b : Nat) (ha : a < 2 ^ 63) (hb : b < 2 ^ 63) :
    int64.or (a : Int) (b : Int) = ((a ||| b : Nat) : Int) := by
  unfold int64.or
  rw [toU64_natCast a (by omega), toU64_natCast b (by omega)]
  exact ofU64_lt _ (Nat.or_lt_two_pow ha hb)

theorem shl_natCast (a k : Nat) (h : a * 2 ^ k < 2 ^ 63) :
    shl (a : Int) k = ((a * 2 ^ k : Nat) : Int) := by
  unfold shl
  have hk : 0 < 2 ^ k := Nat.pow_pos (by norm_num)
  have ha : a < 2 ^ 64 := by
    have : a ≤ a * 2 ^ k := Nat.le_mul_of_pos_right a hk
    omega
  rw [toU64_natCast a ha, Nat.shiftLeft_eq]
  exact ofU64_lt _ h

theorem shr_natCast (a k : Nat) : shr (a : Int) k = ((a / 2 ^ k : Nat) : Int) := by
  unfold shr
  push_cast
  rfl

/-- Masking with `2 ^ k - 1` keeps the low `k` bits. -/
theorem and_mask (a k : Nat) (ha : a < 2 ^ 63) (hk : k ≤ 64) :
    int64.and (a : Int) ((2 ^ k - 1 : Nat) : Int) = ((a % 2 ^ k : Nat) : Int) := by
  have h2 : 2 ^ k ≤ 2 ^ 64 := Nat.pow_le_pow_right (by norm_num) hk
  have hpos : 0 < 2 ^ k := Nat.pow_pos (by norm_num)
  rw [and_natCast a _ ha (by omega), Nat.and_pow_two_sub_one_eq_mod]

/-- Disjoint bit fields: `or` is addition. -/
theorem or_fields (a b i : Nat) (hb : b < 2 ^ i) (h : 2 ^ i * a + b < 2 ^ 63) :
    int64.or ((2 ^ i * a : Nat) : Int) (b : Int) = ((2 ^ i * a + b : Nat) : Int) := by
  rw [or_natCast _ _ (by omega) (by omega), ← Nat.mul_add_lt_is_or hb]

end int64

/-! ## Decimal input and the packed form -/

namespace steamid

open strconv regexp types

theorem data_ne_nil_of_ne_empty (s : String) : s ≠ "" ↔ s.data ≠ [] := by
  constructor
  · intro h hd; apply h; exact String.ext hd
  · intro h hs; apply h; rw [hs]

theorem NewSteamId_digits (s : String) (hne : s.data ≠ [])
    (hd : ∀ c ∈ s.data, isDigit c = true) :
    NewSteamId s =
      if decValue s.data < 2 ^ 63 then .ok (unpack (decValue s.data))
      else .error (.parseInt .ErrRange) := by
  have hs : s ≠ "" := (data_ne_nil_of_ne_empty s).2 hne
  have hm : matchDecimal s.data = true := (matchDecimal_iff _).2 ⟨hne, hd⟩
  unfold NewSteamId
  rw [if_neg hs]
  simp only [hm, if_true]
  rw [ParseInt_digits s.data hne hd]
  by_cases h : decValue s.data < 2 ^ 63
  · rw [if_pos h, if_pos h]
    simp only
    have hmask : ACCOUNT_ID_MASK = ((2 ^ 32 - 1 : Nat) : Int) := by decide
    have himask : ACCOUNT_INSTANCE_MASK = ((2 ^ 20 - 1 : Nat) : Int) := by decide
    have hf : (0xF : Int) = ((2 ^ 4 - 1 : Nat) : Int) := by decide
    have h32 : decValue s.data / 2 ^ 32 < 2 ^ 63 :=
      lt_of_le_of_lt (Nat.div_le_self _ _) h
    have h52 : decValue s.data / 2 ^ 52 < 2 ^ 63 :=
      lt_of_le_of_lt (Nat.div_le_self _ _) h
    rw [hmask, himask, hf, int64.shr_natCast, int64.shr_natCast, int64.shr_natCast,
      int64.and_mask _ 32 h (by norm_num), int64.and_mask _ 20 h32 (by norm_num),
      int64.and_mask _ 4 h52 (by norm_num),
      int64.toU64_natCast _ (lt_of_lt_of_le (Nat.mod_lt _ (by norm_num)) (by norm_num))]
    rfl
  · rw [if_neg h, if_neg h]

theorem GetBigIntId_fields (U T I A : Nat) (tok : String) (hU : U ≤ 127) (hT : T ≤ 15)
    (hI : I < 2 ^ 20) (hA : A < 2 ^ 32) :
    GetBigIntId ⟨(U : Int), T, (I : Int), (A : Int), tok⟩ =
      ((U * 2 ^ 56 + T * 2 ^ 52 + I * 2 ^ 32 + A : Nat) : Int) := by
  unfold GetBigIntId
  simp only
  rw [int64.ofU64_lt T (by omega), int64.shl_natCast U 56 (by omega),
    int64.shl_natCast T 52 (by omega), int64.shl_natCast I 32 (by omega)]
  have e1 : U * 2 ^ 56 = 2 ^ 56 * U := Nat.mul_comm _ _
  have e2 : 2 ^ 56 * U + T * 2 ^ 52 = 2 ^ 52 * (16 * U + T) := by omega
  have e3 : 2 ^ 52 * (16 * U + T) + I * 2 ^ 32 = 2 ^ 32 * (2 ^ 20 * (16 * U + T) + I) := by
    omega
  rw [e1, int64.or_fields U (T * 2 ^ 52) 56 (by omega) (by omega), e2,
    int64.or_fields (16 * U + T) (I * 2 ^ 32) 52 (by omega) (by omega), e3,
    int64.or_fields _ A 32 hA (by omega)]

theorem GetBigIntId_unpack (n : Nat) (h : n < 2 ^ 63) : GetBigIntId (unpack n) = (n : Int) := by
  unfold unpack
  rw [GetBigIntId_fields _ _ _ _ _ (by omega) (by omega) (by omega) (by omega)]
  congr 1
  omega

theorem String_unpack (n : Nat) (h : n < 2 ^ 63) : String_ (unpack n) = ⟨FormatUint n⟩ := by
  unfold String_
  rw [GetBigIntId_unpack n h, FormatInt_natCast]

end steamid

/-! ## Claim C1 -/

namespace strconv

/-- Only the text of zero starts with the digit `0`. -/
theorem FormatUint_canon (n : Nat) :
    FormatUint n = ['0'] ∨ (FormatUint n).head? ≠ some '0' := by
  induction n using Nat.strong_induction_on with
  | _ n ih =>
    by_cases h10 : n < 10
    · rw [FormatUint_lt_ten n h10]
      by_cases h0 : n = 0
      · left; rw [h0]; rfl
      · right
        intro h
        simp only [List.head?_cons, Option.some.injEq] at h
        have ht := congrArg Char.toNat h
        rw [toNat_digitChar n h10] at ht
        have : ('0' : Char).toNat = 48 := rfl
        omega
    · right
      rw [FormatUint_ge_ten n (by omega)]
      have hv := decValue_FormatUint (n / 10)
      have hne := FormatUint_ne_nil (n / 10)
      rcases ih (n / 10) (by omega) with h | h
      · rw [h] at hv
        have : decValue ['0'] = 0 := rfl
        omega
      · revert h hne
        generalize FormatUint (n / 10) = l
        intro hne h
        cases l with
        | nil => exact absurd rfl hne
        | cons a t => simpa using h

end strconv

namespace steamid

open strconv regexp types

/-- Claim C1, as stated, fails: the all-digit input `007` is accepted, and the
decimal text of the identifier returned is `7`. -/
theorem C1_leading_zero_counterexample :
    (∀ c ∈ "007".data, isDigit c = true) ∧
      NewSteamId "007" = .ok ⟨0, 0, 0, 7, ""⟩ ∧
      String_ ⟨0, 0, 0, 7, ""⟩ = "7" ∧ String_ ⟨0, 0, 0, 7, ""⟩ ≠ "007" := by
  decide

/-- Claim C1, amended: for every string `s` of ASCII decimal digits that
`NewSteamId` accepts, `String()` and `GetSteamID64()` of the identifier are the
decimal text of the number `s` denotes, which is `s` itself exactly when `s`
has no superfluous leading zero; and for every `n < 2 ^ 63` the decimal text of
`n` is accepted and `String()` returns that same text. -/
theorem C1_decimal_roundtrip :
    (∀ (s : String) (id : SteamId), (∀ c ∈ s.data, isDigit c = true) →
        NewSteamId s = .ok id →
        String_ id = ⟨FormatUint (decValue s.data)⟩ ∧
        GetSteamID64 id = ⟨FormatUint (decValue s.data)⟩ ∧
        (String_ id = s ↔ (s = "0" ∨ s.data.head? ≠ some '0'))) ∧
    (∀ n : Nat, n < 2 ^ 63 →
        ∃ id, NewSteamId ⟨FormatUint n⟩ = .ok id ∧ String_ id = ⟨FormatUint n⟩ ∧
          GetSteamID64 id = ⟨FormatUint n⟩) := by
  constructor
  · intro s id hd hacc
    have hne : s.data ≠ [] := by
      intro h0
      have : s = "" := String.ext h0
      have he : NewSteamId "" = .error .emptyString := by decide
      rw [this, he] at hacc
      exact Result.noConfusion hacc
    rw [NewSteamId_digits s hne hd] at hacc
    by_cases h : decValue s.data < 2 ^ 63
    · rw [if_pos h] at hacc
      injection hacc with hid
      subst hid
      have hS := String_unpack _ h
      refine ⟨hS, hS, ?_⟩
      rw [hS]
      constructor
      · intro he
        have hdata : FormatUint (decValue s.data) = s.data := congrArg String.data he
        rcases FormatUint_canon (decValue s.data) with hc | hc
        · left; apply String.ext; rw [← hdata, hc]
        · right; rw [← hdata]; exact hc
      · intro hc
        apply String.ext
        show FormatUint (decValue s.data) = s.data
        apply FormatUint_decValue s.data hne hd
        rcases hc with hc | hc
        · left; rw [hc]
        · right; exact hc
    · rw [if_neg h] at hacc
      exact absurd hacc (by simp)
  · intro n hn
    have hv : decValue (FormatUint n) = n := decValue_FormatUint n
    have := NewSteamId_digits ⟨FormatUint n⟩ (FormatUint_ne_nil n) (FormatUint_digits n)
    simp only [hv, if_pos hn] at this
    exact ⟨unpack n, this, String_unpack n hn, String_unpack n hn⟩

/-- Claim C1, amended, at the inputs `76561198435082001` (read back unchanged)
and `007` (read back as `7`). -/
theorem C1_decimal_roundtrip_witness :
    (String_ ⟨1, 1, 1, 474816273, ""⟩ = ⟨FormatUint (decValue "76561198435082001".data)⟩ ∧
      GetSteamID64 ⟨1, 1, 1, 474816273, ""⟩
        = ⟨FormatUint (decValue "76561198435082001".data)⟩ ∧
      (String_ ⟨1, 1, 1, 474816273, ""⟩ = "76561198435082001" ↔
        ("76561198435082001" = "0" ∨ "76561198435082001".data.head? ≠ some '0'))) ∧
    (∃ id, NewSteamId ⟨FormatUint 7⟩ = .ok id ∧ String_ id = ⟨FormatUint 7⟩ ∧
      GetSteamID64 id = ⟨FormatUint 7⟩) :=
  ⟨C1_decimal_roundtrip.1 "76561198435082001" ⟨1, 1, 1, 474816273, ""⟩ (by decide) (by decide),
    C1_decimal_roundtrip.2 7 (by norm_num)⟩

end steamid

/-! ## Claims C2 and C3 -/

namespace steamid

open strconv regexp types

/-- Claim C2 fails on the code: the Individual/Desktop identifier with universe
1 and account number 237408136 renders as `[U:1:237408136]`; parsing that text
leaves the instance at 0, so the decimal texts differ. -/
theorem C2_bracket_roundtrip_individual_fails :
    GetSteam3RenderedID ⟨1, 1, 1, 237408136, ""⟩ = "[U:1:237408136]" ∧
      NewSteamId "[U:1:237408136]" = .ok ⟨1, 1, 0, 237408136, ""⟩ ∧
      String_ ⟨1, 1, 0, 237408136, ""⟩ = "76561193902706568" ∧
      String_ ⟨1, 1, 1, 237408136, ""⟩ = "76561198197673864" := by
  decide

/-- Claim C3: for a non-empty digit string `ds` denoting a number below
`2 ^ 32`, a non-empty token `t` over `[0-9A-Za-z_-]` and any prior receiver
`id0`, `FromTradeUrl` on the trade URL built from `ds` and `t` returns no error
and leaves the receiver Public, Individual, Desktop with that account number
and token; its `GetSteamID64()` is the text of `76561197960265728 + n`. -/
theorem C3_trade_url (ds t : List Char) (id0 : SteamId)
    (hds : ds ≠ []) (hdd : ∀ c ∈ ds, isDigit c = true) (hn : decValue ds < 2 ^ 32)
    (ht : t ≠ []) (htd : ∀ c ∈ t, isWordOrDash c = true) :
    FromTradeUrl id0
        ⟨"https://steamcommunity.com/tradeoffer/new/?partner=".data ++ ds
          ++ "&token=".data ++ t⟩
      = (⟨1, 1, 1, (decValue ds : Int), ⟨t⟩⟩, none) ∧
    GetSteamID64 ⟨1, 1, 1, (decValue ds : Int), ⟨t⟩⟩
      = ⟨FormatUint (76561197960265728 + decValue ds)⟩ := by
  constructor
  · have hm := (matchTradeUrl_eq_some
      ("https://steamcommunity.com/tradeoffer/new/?partner=".data ++ ds ++ "&token=".data ++ t)
      ds t).2 ⟨hds, hdd, ht, htd, rfl⟩
    unfold FromTradeUrl
    simp only [hm]
    rw [ParseInt_digits ds hds hdd, if_pos (by omega)]
    rfl
  · unfold GetSteamID64 String_
    have h := GetBigIntId_fields 1 1 1 (decValue ds) ⟨t⟩ (by norm_num) (by norm_num)
      (by norm_num) hn
    simp only [Nat.cast_one] at h
    rw [h, FormatInt_natCast]
    congr 2

/-- Claim C3 at partner `474816273` and token `RZbHYcrV`, from a receiver that
held other values: the result is `76561198435082001` with that token. -/
theorem C3_trade_url_witness :
    FromTradeUrl ⟨4, 7, 9, 12, "old"⟩
        "https://steamcommunity.com/tradeoffer/new/?partner=474816273&token=RZbHYcrV"
      = (⟨1, 1, 1, 474816273, "RZbHYcrV"⟩, none) ∧
    GetSteamID64 ⟨1, 1, 1, 474816273, "RZbHYcrV"⟩ = "76561198435082001" :=
  C3_trade_url "474816273".data "RZbHYcrV".data ⟨4, 7, 9, 12, "old"⟩
    (by decide) (by decide) (by decide) (by decide) (by decide)

end steamid

/-! ## Claim C4 -/

namespace int64

theorem bitLenAux_le (fuel : Nat) : ∀ (n k : Nat), n < 2 ^ k → bitLenAux fuel n ≤ k := by
  induction fuel with
  | zero => intro n k _; simp [bitLenAux]
  | succ fuel ih =>
    intro n k h
    by_cases h0 : n = 0
    · simp [bitLenAux, h0]
    · simp only [bitLenAux, if_neg h0]
      cases k with
      | zero => simp at h; omega
      | succ k =>
        have : n / 2 < 2 ^ k := by
          rw [Nat.pow_succ] at h
          omega
        have := ih (n / 2) k this
        omega

theorem toFloat64_exact (a : Nat) (h : a < 2 ^ 53) : toFloat64 (a : Int) = (a : Int) := by
  have hb : bitLen a - 53 = 0 := by
    have := bitLenAux_le a a 53 h
    unfold bitLen
    omega
  unfold toFloat64
  simp only [Int.natAbs_ofNat, hb, Nat.pow_zero, Nat.div_one, Nat.mod_one, Nat.mul_zero,
    Nat.mul_one]
  rw [if_neg (by omega), if_neg (by omega)]

theorem floorHalfViaFloat64_exact (a : Nat) (h : a < 2 ^ 53) :
    floorHalfViaFloat64 (a : Int) = ((a / 2 : Nat) : Int) := by
  unfold floorHalfViaFloat64
  rw [toFloat64_exact a h]
  apply wrap_of_range <;> omega

end int64

namespace steamid

open strconv regexp types

/-- Claim C4: for an identifier with `0 <= AccountId < 2 ^ 32`,
`GetSteam2RenderedID(newFormat)` is empty when the type is not Individual, and
otherwise is `STEAM_u:m:q` in decimal with `m = AccountId mod 2`,
`q = AccountId div 2`, and `u = 0` when the universe is 1 and `newFormat` is
false or omitted, else `u = Universe`. -/
theorem C4_legacy_rendering (id : SteamId) (newFormats : List Bool)
    (h0 : 0 ≤ id.AccountId) (h32 : id.AccountId < 2 ^ 32) :
    GetSteam2RenderedID id newFormats =
      if id.Type_ ≠ TYPE_INDIVIDUAL then ""
      else ⟨"STEAM_".data
        ++ FormatInt (if id.Universe = 1 ∧ newFormats.head? ≠ some true then 0 else id.Universe)
        ++ ":".data ++ FormatInt (id.AccountId % 2)
        ++ ":".data ++ FormatInt (id.AccountId / 2)⟩ := by
  obtain ⟨a, ha⟩ := Int.eq_ofNat_of_zero_le h0
  have ha32 : a < 2 ^ 32 := by omega
  have hand : int64.and id.AccountId 1 = id.AccountId % 2 := by
    rw [ha]
    have := int64.and_mask a 1 (by omega) (by norm_num)
    simp only [Nat.pow_one, Nat.add_one_sub_one, Nat.cast_one] at this
    rw [this]; norm_cast
  have hfl : int64.floorHalfViaFloat64 id.AccountId = id.AccountId / 2 := by
    rw [ha, int64.floorHalfViaFloat64_exact a (by omega)]; norm_cast
  unfold GetSteam2RenderedID
  by_cases hT : id.Type_ = TYPE_INDIVIDUAL
  · simp only [hT, ne_eq, not_true_eq_false, if_false]
    rw [hand, hfl]
    cases newFormats with
    | nil => simp
    | cons b rest => cases b <;> simp
  · simp only [ne_eq, hT, not_false_eq_true, if_true]

/-- Claim C4 at the identifier parsed from `76561198435082001`, which renders
as `STEAM_0:1:237408136`. -/
theorem C4_legacy_rendering_witness :
    NewSteamId "76561198435082001" = .ok ⟨1, 1, 1, 474816273, ""⟩ ∧
    GetSteam2RenderedID ⟨1, 1, 1, 474816273, ""⟩ [] = "STEAM_0:1:237408136" :=
  ⟨by decide,
    (C4_legacy_rendering ⟨1, 1, 1, 474816273, ""⟩ [] (by decide) (by decide)).trans (by decide)⟩

end steamid

/-! ## Dispatch of `NewSteamId`, and claim C5 -/

namespace steamid

open strconv regexp types

theorem matchSteam2_iff_legacy (s m1 m2 m3 : List Char) :
    matchSteam2 s = some (m1, m2, m3) ↔
      ∃ x y, m1 = [x] ∧ m2 = [y] ∧ is05 x = true ∧ is01 y = true ∧ allDigits m3 ∧
        s = legacyText x y m3 := by
  rw [matchSteam2_eq_some]
  constructor
  · rintro ⟨x, y, h1, h2, hx, hy, hne, hd, hs⟩
    exact ⟨x, y, h1, h2, hx, hy, ⟨hne, hd⟩, by rw [hs]; simp [legacyText]⟩
  · rintro ⟨x, y, h1, h2, hx, hy, ⟨hne, hd⟩, hs⟩
    exact ⟨x, y, h1, h2, hx, hy, hne, hd, by rw [hs]; simp [legacyText]⟩

theorem matchSteam3_iff_bracket (s m1 m2 m3 m4 : List Char) :
    matchSteam3 s = some (m1, m2, m3, m4) ↔
      ∃ l u, m1 = [l] ∧ m2 = [u] ∧ isLetter l = true ∧ is05 u = true ∧ allDigits m3 ∧
        ((m4 = [] ∧ s = bracketText l u m3) ∨
          ∃ i, allDigits i ∧ m4 = ':' :: i ∧ s = bracketInstanceText l u m3 i) := by
  rw [matchSteam3_eq_some]
  constructor
  · rintro ⟨l, u, h1, h2, hl, hu, hne, hd, h⟩
    refine ⟨l, u, h1, h2, hl, hu, ⟨hne, hd⟩, ?_⟩
    rcases h with ⟨h4, hs⟩ | ⟨i, hi, hdi, h4, hs⟩
    · left; exact ⟨h4, by rw [hs]; simp [bracketText]⟩
    · right; exact ⟨i, ⟨hi, hdi⟩, h4, by rw [hs]; simp [bracketInstanceText]⟩
  · rintro ⟨l, u, h1, h2, hl, hu, ⟨hne, hd⟩, h⟩
    refine ⟨l, u, h1, h2, hl, hu, hne, hd, ?_⟩
    rcases h with ⟨h4, hs⟩ | ⟨i, ⟨hi, hdi⟩, h4, hs⟩
    · left; exact ⟨h4, by rw [hs]; simp [bracketText]⟩
    · right; exact ⟨i, hi, hdi, h4, by rw [hs]; simp [bracketInstanceText]⟩

theorem legacyForm_iff (s : List Char) :
    legacyForm s ↔ ∃ m, matchSteam2 s = some m := by
  constructor
  · rintro ⟨x, y, z, hx, hy, hz, hs⟩
    exact ⟨([x], [y], z), (matchSteam2_iff_legacy s _ _ _).2 ⟨x, y, rfl, rfl, hx, hy, hz, hs⟩⟩
  · rintro ⟨⟨m1, m2, m3⟩, hm⟩
    obtain ⟨x, y, _, _, hx, hy, hz, hs⟩ := (matchSteam2_iff_legacy s _ _ _).1 hm
    exact ⟨x, y, m3, hx, hy, hz, hs⟩

theorem bracketForm_iff (s : List Char) :
    bracketForm s ↔ ∃ m, matchSteam3 s = some m := by
  constructor
  · rintro ⟨l, u, n, hl, hu, hn, h⟩
    rcases h with hs | ⟨i, hi, hs⟩
    · exact ⟨([l], [u], n, []), (matchSteam3_iff_bracket s _ _ _ _).2
        ⟨l, u, rfl, rfl, hl, hu, hn, Or.inl ⟨rfl, hs⟩⟩⟩
    · exact ⟨([l], [u], n, ':' :: i), (matchSteam3_iff_bracket s _ _ _ _).2
        ⟨l, u, rfl, rfl, hl, hu, hn, Or.inr ⟨i, hi, rfl, hs⟩⟩⟩
  · rintro ⟨⟨m1, m2, m3, m4⟩, hm⟩
    obtain ⟨l, u, _, _, hl, hu, hn, h⟩ := (matchSteam3_iff_bracket s _ _ _ _).1 hm
    refine ⟨l, u, m3, hl, hu, hn, ?_⟩
    rcases h with ⟨_, hs⟩ | ⟨i, hi, _, hs⟩
    · left; exact hs
    · right; exact ⟨i, hi, hs⟩

theorem matchDecimal_eq_false (s : List Char) (h : ¬ allDigits s) : matchDecimal s = false := by
  cases hm : matchDecimal s with
  | false => rfl
  | true => exact absurd ((matchDecimal_iff s).1 hm) h

/-- The dispatch of `NewSteamId` on an input that is not all digits. -/
theorem NewSteamId_nondecimal (s : String) (hs : s ≠ "") (h : ¬ allDigits s.data) :
    NewSteamId s =
      match matchSteam2 s.data with
      | some (m1, m2, m3) => .ok (fromSteam2 blank m1 m2 m3)
      | none =>
        match matchSteam3 s.data with
        | some (m1, m2, m3, m4) => .ok (fromSteam3 blank m1 m2 m3 m4)
        | none => .error (.unknownFormat s) := by
  unfold NewSteamId
  rw [if_neg hs]
  simp only [matchDecimal_eq_false s.data h, Bool.false_eq_true, if_false]
  rfl

theorem not_allDigits_legacy (x y : Char) (z : List Char) : ¬ allDigits (legacyText x y z) := by
  rintro ⟨_, hd⟩
  have := hd 'S' (by simp [legacyText])
  revert this; decide

theorem not_allDigits_bracket (s t : List Char) (h : s = '[' :: t) : ¬ allDigits s := by
  rintro ⟨_, hd⟩
  have := hd '[' (by simp [h])
  revert this; decide

theorem NewSteamId_steam2 (s : String) (m1 m2 m3 : List Char)
    (h : matchSteam2 s.data = some (m1, m2, m3)) :
    NewSteamId s = .ok (fromSteam2 blank m1 m2 m3) := by
  obtain ⟨x, y, _, _, _, _, _, hs⟩ := (matchSteam2_iff_legacy _ _ _ _).1 h
  have hne : s ≠ "" := by
    rw [data_ne_nil_of_ne_empty, hs]; simp [legacyText]
  rw [NewSteamId_nondecimal s hne (by rw [hs]; exact not_allDigits_legacy x y m3), h]

theorem matchSteam2_bracket (s t : List Char) (h : s = '[' :: t) : matchSteam2 s = none := by
  cases hm : matchSteam2 s with
  | none => rfl
  | some m =>
    obtain ⟨m1, m2, m3⟩ := m
    obtain ⟨x, y, _, _, _, _, _, hs⟩ := (matchSteam2_iff_legacy _ _ _ _).1 hm
    rw [h] at hs
    simp [legacyText] at hs

theorem NewSteamId_steam3 (s : String) (m1 m2 m3 m4 : List Char)
    (h : matchSteam3 s.data = some (m1, m2, m3, m4)) :
    NewSteamId s = .ok (fromSteam3 blank m1 m2 m3 m4) := by
  obtain ⟨l, u, _, _, _, _, _, _, hs⟩ := (matchSteam3_eq_some _ _ _ _ _).1 h
  have hs' : ∃ t, s.data = '[' :: t := by
    rcases hs with ⟨_, hs⟩ | ⟨i, _, _, _, hs⟩
    · exact ⟨_, hs⟩
    · exact ⟨_, hs⟩
  obtain ⟨t, ht⟩ := hs'
  have hne : s ≠ "" := by
    rw [data_ne_nil_of_ne_empty, ht]; simp
  rw [NewSteamId_nondecimal s hne (not_allDigits_bracket _ t ht), matchSteam2_bracket _ t ht, h]

/-- Claim C5: `NewSteamId` returns an error exactly when the input is empty,
or matches none of the three patterns, or is all decimal digits denoting a
number above `2 ^ 63 - 1`; it fails on the empty string and on `not-an-id`,
and it succeeds on `0` and on `[U:5:0]`. -/
theorem C5_parse_failure_structural :
    (∀ input : String, (∃ e, NewSteamId input = .error e) ↔
      (input = "" ∨
        (¬ allDigits input.data ∧ ¬ legacyForm input.data ∧ ¬ bracketForm input.data) ∨
        (allDigits input.data ∧ 2 ^ 63 - 1 < decValue input.data))) ∧
    NewSteamId "" = .error .emptyString ∧
    NewSteamId "not-an-id" = .error (.unknownFormat "not-an-id") ∧
    NewSteamId "0" = .ok ⟨0, 0, 0, 0, ""⟩ ∧
    NewSteamId "[U:5:0]" = .ok ⟨5, 1, 0, 0, ""⟩ := by
  refine ⟨?_, by decide, by decide, by decide, by decide⟩
  intro input
  by_cases h0 : input = ""
  · subst h0
    constructor
    · intro _; left; rfl
    · intro _; exact ⟨.emptyString, by decide⟩
  by_cases hdig : allDigits input.data
  · rw [NewSteamId_digits input hdig.1 hdig.2]
    by_cases hlt : decValue input.data < 2 ^ 63
    · rw [if_pos hlt]
      constructor
      · rintro ⟨e, he⟩; exact Result.noConfusion he
      · rintro (h | ⟨h, _⟩ | ⟨_, h⟩)
        · exact absurd h h0
        · exact absurd hdig h
        · omega
    · rw [if_neg hlt]
      constructor
      · intro _; right; right; exact ⟨hdig, by omega⟩
      · intro _; exact ⟨_, rfl⟩
  · rw [NewSteamId_nondecimal input h0 hdig]
    cases h2 : matchSteam2 input.data with
    | some m =>
      obtain ⟨m1, m2, m3⟩ := m
      have hl : legacyForm input.data := (legacyForm_iff _).2 ⟨_, h2⟩
      constructor
      · rintro ⟨e, he⟩; exact Result.noConfusion he
      · rintro (h | ⟨_, h, _⟩ | ⟨h, _⟩)
        · exact absurd h h0
        · exact absurd hl h
        · exact absurd h hdig
    | none =>
      have hl : ¬ legacyForm input.data := by
        rw [legacyForm_iff, h2]; rintro ⟨m, hm⟩; exact Option.noConfusion hm
      cases h3 : matchSteam3 input.data with
      | some m =>
        obtain ⟨m1, m2, m3, m4⟩ := m
        have hb : bracketForm input.data := (bracketForm_iff _).2 ⟨_, h3⟩
        constructor
        · rintro ⟨e, he⟩; exact Result.noConfusion he
        · rintro (h | ⟨_, _, h⟩ | ⟨h, _⟩)
          · exact absurd h h0
          · exact absurd hb h
          · exact absurd h hdig
      | none =>
        have hb : ¬ bracketForm input.data := by
          rw [bracketForm_iff, h3]; rintro ⟨m, hm⟩; exact Option.noConfusion hm
        constructor
        · intro _; right; left; exact ⟨hdig, hl, hb⟩
        · intro _; exact ⟨_, rfl⟩

end steamid

/-! ## Claim C6 -/

namespace steamid

open strconv regexp types

/-- Claim C6: `IsValid()` is true exactly when the type is in 1..10, the
universe is in 1..4, an Individual has a non-zero account number and instance
at most 3, a Clan has a non-zero account number and instance 0, and a
GameServer has a non-zero account number; the token does not affect it. -/
theorem C6_isValid_reference (id : SteamId) :
    (IsValid id = true ↔ validSpec id) ∧
    (∀ tok : String, IsValid { id with Token := tok } = IsValid id) := by
  refine ⟨?_, fun _ => rfl⟩
  unfold IsValid validSpec
  simp only [TYPE_INVALID, TYPE_ANON_USER, TYPE_INDIVIDUAL, TYPE_CLAN, TYPE_GAMESERVER,
    UNIVERSE_INVALID, UNIVERSE_DEV, INSTANCE_WEB, INSTANCE_ALL]
  split_ifs with h1 h2 h3 h4 h5
  · simp only [Bool.false_eq_true, false_iff]; rintro ⟨h, _⟩; omega
  · simp only [Bool.false_eq_true, false_iff]; rintro ⟨_, h, _⟩; omega
  · simp only [Bool.false_eq_true, false_iff]
    rintro ⟨_, _, h, _⟩
    have := h h3.1
    omega
  · simp only [Bool.false_eq_true, false_iff]
    rintro ⟨_, _, _, h, _⟩
    have := h h4.1
    omega
  · simp only [Bool.false_eq_true, false_iff]
    rintro ⟨_, _, _, _, h⟩
    exact h h5.1 h5.2
  · simp only [true_iff]
    refine ⟨by omega, by omega, ?_, ?_, ?_⟩
    · intro ht; constructor <;> omega
    · intro ht; constructor <;> omega
    · intro ht; omega

end steamid

/-! ## Claim C7 -/

namespace steamid

open strconv regexp types

/-- Claim C7: for an identifier with `0 <= Universe <= 127`, `0 <= Type <= 15`,
`0 <= Instance < 2 ^ 20` and `0 <= AccountId < 2 ^ 32`, `GetBigIntId()` is
`Universe * 2 ^ 56 + Type * 2 ^ 52 + Instance * 2 ^ 32 + AccountId`, and
`NewSteamId(id.String())` succeeds with the same four fields. -/
theorem C7_packing_inverse (id : SteamId)
    (hU0 : 0 ≤ id.Universe) (hU : id.Universe ≤ 127) (hT : id.Type_ ≤ 15)
    (hI0 : 0 ≤ id.Instance) (hI : id.Instance < 2 ^ 20)
    (hA0 : 0 ≤ id.AccountId) (hA : id.AccountId < 2 ^ 32) :
    GetBigIntId id
      = id.Universe * 2 ^ 56 + (id.Type_ : Int) * 2 ^ 52 + id.Instance * 2 ^ 32 + id.AccountId ∧
    ∃ id', NewSteamId (String_ id) = .ok id' ∧ id'.Universe = id.Universe ∧
      id'.Type_ = id.Type_ ∧ id'.Instance = id.Instance ∧ id'.AccountId = id.AccountId := by
  obtain ⟨U, T, I, A, tok⟩ := id
  simp only at hU0 hU hT hI0 hI hA0 hA ⊢
  obtain ⟨u, rfl⟩ := Int.eq_ofNat_of_zero_le hU0
  obtain ⟨i, rfl⟩ := Int.eq_ofNat_of_zero_le hI0
  obtain ⟨a, rfl⟩ := Int.eq_ofNat_of_zero_le hA0
  have hu : u ≤ 127 := by omega
  have hi : i < 2 ^ 20 := by omega
  have ha : a < 2 ^ 32 := by omega
  have hG := GetBigIntId_fields u T i a tok hu hT hi ha
  have hN : u * 2 ^ 56 + T * 2 ^ 52 + i * 2 ^ 32 + a < 2 ^ 63 := by omega
  refine ⟨by rw [hG]; push_cast; rfl, ?_⟩
  have hS : String_ ⟨(u : Int), T, (i : Int), (a : Int), tok⟩
      = ⟨FormatUint (u * 2 ^ 56 + T * 2 ^ 52 + i * 2 ^ 32 + a)⟩ := by
    unfold String_
    rw [hG, FormatInt_natCast]
  have hP := NewSteamId_digits ⟨FormatUint (u * 2 ^ 56 + T * 2 ^ 52 + i * 2 ^ 32 + a)⟩
    (FormatUint_ne_nil _) (FormatUint_digits _)
  simp only [decValue_FormatUint, if_pos hN] at hP
  rw [hS]
  refine ⟨_, hP, ?_, ?_, ?_, ?_⟩
  · simp only [unpack]
    congr 1; omega
  · simp only [unpack]
    omega
  · simp only [unpack]
    congr 1; omega
  · simp only [unpack]
    congr 1; omega

/-- Claim C7 at the identifier with universe 1, type 1, instance 1 and account
number 474816273. -/
theorem C7_packing_inverse_witness :
    GetBigIntId ⟨1, 1, 1, 474816273, ""⟩ = 76561198435082001 ∧
    ∃ id', NewSteamId (String_ ⟨1, 1, 1, 474816273, ""⟩) = .ok id' ∧ id'.Universe = 1 ∧
      id'.Type_ = 1 ∧ id'.Instance = 1 ∧ id'.AccountId = 474816273 :=
  C7_packing_inverse ⟨1, 1, 1, 474816273, ""⟩ (by decide) (by decide) (by decide) (by decide)
    (by decide) (by decide) (by decide)

end steamid

/-! ## The legacy and bracket branches -/

namespace steamid

open strconv regexp types

theorem is05_digit (c : Char) (h : is05 c = true) : isDigit c = true ∧ digitVal c ≤ 5 := by
  unfold is05 at h
  have h1 : 48 ≤ c.toNat ∧ c.toNat ≤ 53 := by simpa using h
  refine ⟨(isDigit_iff c).2 ⟨h1.1, by omega⟩, ?_⟩
  unfold digitVal; omega

theorem is01_digit (c : Char) (h : is01 c = true) : isDigit c = true ∧ digitVal c ≤ 1 := by
  unfold is01 at h
  have h1 : 48 ≤ c.toNat ∧ c.toNat ≤ 49 := by simpa using h
  refine ⟨(isDigit_iff c).2 ⟨h1.1, by omega⟩, ?_⟩
  unfold digitVal; omega

theorem ParseInt_digit (c : Char) (h : isDigit c = true) :
    (ParseInt [c]).1 = (digitVal c : Int) := by
  have hv : decValue [c] = digitVal c := by simp [decValue]
  have hlt := digitVal_lt c h
  rw [ParseInt_digits [c] (by simp) (by simpa using h), hv, if_pos (by omega)]

theorem ParseInt_allDigits (z : List Char) (hz : allDigits z) :
    (ParseInt z).1 = if decValue z < 2 ^ 63 then (decValue z : Int) else 2 ^ 63 - 1 := by
  rw [ParseInt_digits z hz.1 hz.2]
  split_ifs <;> rfl

theorem ParseInt_allDigits_range (z : List Char) (hz : allDigits z) :
    0 ≤ (ParseInt z).1 ∧ (ParseInt z).1 < 2 ^ 63 := by
  rw [ParseInt_allDigits z hz]
  split_ifs <;> omega

theorem ParseInt_allDigits_exact (z : List Char) (hz : allDigits z) (h : decValue z < 2 ^ 63) :
    (ParseInt z).1 = (decValue z : Int) := by
  rw [ParseInt_allDigits z hz, if_pos h]

theorem Parse_le (c : String) : Parse c ≤ 10 := by
  unfold Parse ParseIn
  cases h : TypeChars.find? (fun kv => kv.2 == c) with
  | none => simp [TYPE_INVALID]
  | some kv =>
    have hm : kv ∈ TypeChars := List.mem_of_find?_eq_some h
    have hall : ∀ kv ∈ TypeChars, kv.1 ≤ 10 := by decide
    exact hall kv hm

/-- Setting a flag bit below bit 20 keeps a 20-bit value within 20 bits. -/
theorem or_flag_lt (v f : Nat) (hv : v < 2 ^ 20) (hf : f < 2 ^ 20) :
    0 ≤ int64.or (v : Int) (f : Int) ∧ int64.or (v : Int) (f : Int) < 2 ^ 20 := by
  rw [int64.or_natCast v f (by omega) (by omega)]
  have := @Nat.or_lt_two_pow v f 20 hv hf
  omega

theorem fromSteam2_eq (x y : Char) (z : List Char) (hx : is05 x = true) (hy : is01 y = true) :
    fromSteam2 blank [x] [y] z =
      ⟨if digitVal x = 0 then 1 else (digitVal x : Int), 1, 1,
        int64.add (int64.mul (ParseInt z).1 2) (digitVal y : Int), ""⟩ := by
  unfold fromSteam2
  simp only [ParseInt_digit x (is05_digit x hx).1, ParseInt_digit y (is01_digit y hy).1]
  by_cases h0 : digitVal x = 0
  · simp [h0, blank, UNIVERSE_PUBLIC, TYPE_INDIVIDUAL, INSTANCE_DESKTOP]
  · have : ¬ ((digitVal x : Int) = 0) := by omega
    simp [h0, this, blank, UNIVERSE_PUBLIC, TYPE_INDIVIDUAL, INSTANCE_DESKTOP]

theorem fromSteam3_Universe (l u : Char) (n m4 : List Char) (hu : is05 u = true) :
    (fromSteam3 blank [l] [u] n m4).Universe = (digitVal u : Int) := by
  unfold fromSteam3
  simp only [ParseInt_digit u (is05_digit u hu).1]
  split_ifs <;> rfl

theorem fromSteam3_AccountId (l u : Char) (n m4 : List Char) :
    (fromSteam3 blank [l] [u] n m4).AccountId = (ParseInt n).1 := by
  unfold fromSteam3
  simp only
  split_ifs <;> rfl

theorem fromSteam3_Type (l u : Char) (n m4 : List Char) :
    (fromSteam3 blank [l] [u] n m4).Type_ ≤ 10 := by
  unfold fromSteam3
  simp only
  split_ifs
  all_goals first
    | exact Parse_le _
    | (simp only [TYPE_INDIVIDUAL, TYPE_CLAN, TYPE_CHAT]; omega)

theorem fromSteam3_Instance (l u : Char) (n m4 : List Char) (v : Nat) (hv : v < 2 ^ 20)
    (h4 : m4 = [] ∨ (ParseInt (m4.drop 1)).1 = (v : Int)) :
    0 ≤ (fromSteam3 blank [l] [u] n m4).Instance ∧
      (fromSteam3 blank [l] [u] n m4).Instance < 2 ^ 20 := by
  have hc : CHAT_INSTANCE_FLAGS_CLAN = ((2 ^ 19 : Nat) : Int) := by decide
  have hl : CHAT_INSTANCE_FLAGS_LOBBY = ((2 ^ 18 : Nat) : Int) := by decide
  have hz : (0 : Int) = ((0 : Nat) : Int) := rfl
  unfold fromSteam3
  simp only
  by_cases hm : m4 = []
  · simp only [hm, ne_eq, not_true_eq_false, if_false]
    split_ifs
    · simp [blank, INSTANCE_ALL]
    · simp only [blank, INSTANCE_ALL, hc]
      rw [hz]; exact or_flag_lt 0 _ (by norm_num) (by norm_num)
    · simp only [blank, INSTANCE_ALL, hl]
      rw [hz]; exact or_flag_lt 0 _ (by norm_num) (by norm_num)
    · simp [blank, INSTANCE_ALL]
  · have hp : (ParseInt (m4.drop 1)).1 = (v : Int) := by
      rcases h4 with h | h
      · exact absurd h hm
      · exact h
    simp only [ne_eq, hm, not_false_eq_true, if_true, hp]
    split_ifs
    · simp [INSTANCE_DESKTOP]
    · simp only [hc]
      exact or_flag_lt v _ hv (by norm_num)
    · simp only [hl]
      exact or_flag_lt v _ hv (by norm_num)
    · simp only
      omega

end steamid

/-! ## Claims C8 and C9 -/

namespace steamid

open strconv regexp types

theorem NewSteamId_ok_ne_empty (input : String) (id : SteamId)
    (h : NewSteamId input = .ok id) : input ≠ "" := by
  intro h0
  have he : NewSteamId "" = .error .emptyString := by decide
  rw [h0, he] at h
  exact Result.noConfusion h

/-- The kind fits in 4 bits and the universe in 8 bits for every identifier
`NewSteamId` returns. -/
theorem NewSteamId_narrow_fields (input : String) (id : SteamId)
    (h : NewSteamId input = .ok id) :
    id.Type_ < 2 ^ 4 ∧ 0 ≤ id.Universe ∧ id.Universe < 2 ^ 8 := by
  have hne := NewSteamId_ok_ne_empty input id h
  by_cases hdig : allDigits input.data
  · rw [NewSteamId_digits input hdig.1 hdig.2] at h
    by_cases hlt : decValue input.data < 2 ^ 63
    · rw [if_pos hlt] at h
      injection h with h
      subst h
      simp only [unpack]
      refine ⟨?_, ?_, ?_⟩ <;> omega
    · rw [if_neg hlt] at h
      exact Result.noConfusion h
  · rw [NewSteamId_nondecimal input hne hdig] at h
    cases h2 : matchSteam2 input.data with
    | some m =>
      obtain ⟨m1, m2, m3⟩ := m
      rw [h2] at h
      obtain ⟨x, y, rfl, rfl, hx, hy, _, _⟩ := (matchSteam2_iff_legacy _ _ _ _).1 h2
      simp only at h
      injection h with h
      subst h
      rw [fromSteam2_eq x y m3 hx hy]
      have := (is05_digit x hx).2
      simp only
      split_ifs <;> refine ⟨?_, ?_, ?_⟩ <;> omega
    | none =>
      rw [h2] at h
      cases h3 : matchSteam3 input.data with
      | some m =>
        obtain ⟨m1, m2, m3, m4⟩ := m
        rw [h3] at h
        obtain ⟨l, u, rfl, rfl, _, hu, _, _⟩ := (matchSteam3_iff_bracket _ _ _ _ _).1 h3
        simp only at h
        injection h with h
        subst h
        have h1 := fromSteam3_Type l u m3 m4
        have h2 := fromSteam3_Universe l u m3 m4 hu
        have h3 := (is05_digit u hu).2
        refine ⟨?_, ?_, ?_⟩ <;> omega
      | none =>
        rw [h3] at h
        exact Result.noConfusion h

theorem NewSteamId_decimal_wide (input : String) (id : SteamId)
    (h : NewSteamId input = .ok id) (hdig : allDigits input.data) : wideFieldsFit id := by
  rw [NewSteamId_digits input hdig.1 hdig.2] at h
  by_cases hlt : decValue input.data < 2 ^ 63
  · rw [if_pos hlt] at h
    injection h with h
    subst h
    simp only [unpack, wideFieldsFit]
    refine ⟨?_, ?_, ?_, ?_⟩ <;> omega
  · rw [if_neg hlt] at h
    exact Result.noConfusion h

theorem NewSteamId_legacy_exact (input : String) (x y : Char) (z : List Char)
    (hx : is05 x = true) (hy : is01 y = true) (hz : allDigits z)
    (hs : input.data = legacyText x y z) (hlt : decValue z < 2 ^ 62) :
    NewSteamId input =
      .ok ⟨if digitVal x = 0 then 1 else (digitVal x : Int), 1, 1,
        ((2 * decValue z + digitVal y : Nat) : Int), ""⟩ := by
  have hm := (matchSteam2_iff_legacy input.data [x] [y] z).2 ⟨x, y, rfl, rfl, hx, hy, hz, hs⟩
  rw [NewSteamId_steam2 input _ _ _ hm, fromSteam2_eq x y z hx hy,
    ParseInt_allDigits_exact z hz (by omega)]
  have hy1 := (is01_digit y hy).2
  have e1 : int64.mul (decValue z : Int) 2 = ((2 * decValue z : Nat) : Int) := by
    unfold int64.mul
    rw [int64.wrap_of_range] <;> omega
  have e2 : int64.add ((2 * decValue z : Nat) : Int) (digitVal y : Int)
      = ((2 * decValue z + digitVal y : Nat) : Int) := by
    unfold int64.add
    rw [int64.wrap_of_range] <;> omega
  rw [e1, e2]

theorem NewSteamId_legacy_wide (input : String) (id : SteamId)
    (h : NewSteamId input = .ok id) (x y : Char) (z : List Char)
    (hx : is05 x = true) (hy : is01 y = true) (hz : allDigits z)
    (hs : input.data = legacyText x y z) (hlt : decValue z < 2 ^ 31) : wideFieldsFit id := by
  rw [NewSteamId_legacy_exact input x y z hx hy hz hs (by omega)] at h
  injection h with h
  subst h
  have hy1 := (is01_digit y hy).2
  simp only [wideFieldsFit]
  refine ⟨?_, ?_, ?_, ?_⟩ <;> omega

theorem NewSteamId_bracket_wide (input : String) (id : SteamId)
    (h : NewSteamId input = .ok id) (l u : Char) (n m4 : List Char) (v : Nat)
    (hm : matchSteam3 input.data = some ([l], [u], n, m4)) (hn : allDigits n)
    (hlt : decValue n < 2 ^ 32) (hv : v < 2 ^ 20)
    (h4 : m4 = [] ∨ (ParseInt (m4.drop 1)).1 = (v : Int)) : wideFieldsFit id := by
  rw [NewSteamId_steam3 input _ _ _ _ hm] at h
  injection h with h
  subst h
  have hA := fromSteam3_AccountId l u n m4
  rw [ParseInt_allDigits_exact n hn (by omega)] at hA
  have hI := fromSteam3_Instance l u n m4 v hv h4
  simp only [wideFieldsFit]
  refine ⟨?_, ?_, hI.1, hI.2⟩ <;> omega

/-- Claim C8, as stated, fails: the bracket input `[U:1:4294967296]` is
accepted and the identifier has account number `2 ^ 32`. -/
theorem C8_field_width_counterexample :
    NewSteamId "[U:1:4294967296]" = .ok ⟨1, 1, 0, 4294967296, ""⟩ ∧
      ¬ ((⟨1, 1, 0, 4294967296, ""⟩ : SteamId).AccountId < 2 ^ 32) := by
  decide

/-- Claim C8, amended: every identifier `NewSteamId` returns has its kind
within 4 bits and its universe within 8 bits; its account number is within 32
bits and its instance within 20 bits when the input is decimal, when it is
`STEAM_X:Y:Z` with `Z < 2 ^ 31`, and when it is the bracket form with a written
account number below `2 ^ 32` and a written instance, if any, below `2 ^ 20`. -/
theorem C8_field_widths (input : String) (id : SteamId) (h : NewSteamId input = .ok id) :
    (id.Type_ < 2 ^ 4 ∧ 0 ≤ id.Universe ∧ id.Universe < 2 ^ 8) ∧
    (allDigits input.data → wideFieldsFit id) ∧
    (∀ x y z, is05 x = true → is01 y = true → allDigits z →
      input.data = legacyText x y z → decValue z < 2 ^ 31 → wideFieldsFit id) ∧
    (∀ l u n, isLetter l = true → is05 u = true → allDigits n →
      input.data = bracketText l u n → decValue n < 2 ^ 32 → wideFieldsFit id) ∧
    (∀ l u n i, isLetter l = true → is05 u = true → allDigits n → allDigits i →
      input.data = bracketInstanceText l u n i → decValue n < 2 ^ 32 →
      decValue i < 2 ^ 20 → wideFieldsFit id) := by
  refine ⟨NewSteamId_narrow_fields input id h, NewSteamId_decimal_wide input id h, ?_, ?_, ?_⟩
  · intro x y z hx hy hz hs hlt
    exact NewSteamId_legacy_wide input id h x y z hx hy hz hs hlt
  · intro l u n hl hu hn hs hlt
    have hm := (matchSteam3_iff_bracket input.data [l] [u] n []).2
      ⟨l, u, rfl, rfl, hl, hu, hn, Or.inl ⟨rfl, hs⟩⟩
    exact NewSteamId_bracket_wide input id h l u n [] 0 hm hn hlt (by norm_num) (Or.inl rfl)
  · intro l u n i hl hu hn hi hs hlt hilt
    have hm := (matchSteam3_iff_bracket input.data [l] [u] n (':' :: i)).2
      ⟨l, u, rfl, rfl, hl, hu, hn, Or.inr ⟨i, hi, rfl, hs⟩⟩
    refine NewSteamId_bracket_wide input id h l u n (':' :: i) (decValue i) hm hn hlt hilt
      (Or.inr ?_)
    simp only [List.drop_succ_cons, List.drop_zero]
    exact ParseInt_allDigits_exact i hi (by omega)

/-- Claim C8, amended, at the input `[M:1:7:3]`: kind 2, universe 1, account
number 7 and instance 3 are all within their widths. -/
theorem C8_field_widths_witness :
    NewSteamId "[M:1:7:3]" = .ok ⟨1, 2, 3, 7, ""⟩ ∧
    wideFieldsFit ⟨1, 2, 3, 7, ""⟩ :=
  ⟨by decide,
    (C8_field_widths "[M:1:7:3]" ⟨1, 2, 3, 7, ""⟩ (by decide)).2.2.2.2 'M' '1' "7".data "3".data
      (by decide) (by decide) ⟨by decide, by decide⟩ ⟨by decide, by decide⟩ (by decide)
      (by decide) (by decide)⟩

/-- Claim C9 fails on the code: for `STEAM_1:1:99999999999999999999` the
over-wide `Z` saturates at `2 ^ 63 - 1` and the doubling wraps, giving account
number `-1`; for `Z = 2 ^ 62` the doubling alone wraps to `-2 ^ 63`. -/
theorem C9_legacy_overflow_wraps :
    NewSteamId "STEAM_1:1:99999999999999999999" = .ok ⟨1, 1, 1, -1, ""⟩ ∧
    NewSteamId "STEAM_0:0:4611686018427387904" = .ok ⟨1, 1, 1, -9223372036854775808, ""⟩ := by
  decide

end steamid

/-! ## Claim C10 -/

namespace int64

theorem and_bit19 (x : Int) : 0 < int64.and x 524288 ↔ x / 2 ^ 19 % 2 = 1 := by
  unfold int64.and
  have h1 : toU64 524288 = 2 ^ 19 := by decide
  rw [h1, Nat.and_two_pow, Nat.testBit_to_div_mod]
  unfold ofU64 toU64
  by_cases hb : (x % 2 ^ 64).toNat / 2 ^ 19 % 2 = 1
  · simp only [hb, decide_True, Bool.toNat_true, Nat.one_mul]
    constructor
    · intro _; omega
    · intro _; decide
  · simp only [hb, decide_False, Bool.toNat_false, Nat.zero_mul]
    constructor
    · intro h; exact absurd h (by decide)
    · intro h; omega

theorem and_bit18 (x : Int) : 0 < int64.and x 262144 ↔ x / 2 ^ 18 % 2 = 1 := by
  unfold int64.and
  have h1 : toU64 262144 = 2 ^ 18 := by decide
  rw [h1, Nat.and_two_pow, Nat.testBit_to_div_mod]
  unfold ofU64 toU64
  by_cases hb : (x % 2 ^ 64).toNat / 2 ^ 18 % 2 = 1
  · simp only [hb, decide_True, Bool.toNat_true, Nat.one_mul]
    constructor
    · intro _; omega
    · intro _; decide
  · simp only [hb, decide_False, Bool.toNat_false, Nat.zero_mul]
    constructor
    · intro h; exact absurd h (by decide)
    · intro h; omega

end int64

namespace steamid

open strconv regexp types

/-- Claim C10: for every identifier, `GetSteam3RenderedID()` equals the bracket
rendering of the specification. -/
theorem C10_bracket_rendering_reference (id : SteamId) :
    GetSteam3RenderedID id = renderBracketSpec id := by
  have hc : CHAT_INSTANCE_FLAGS_CLAN = 524288 := by decide
  have hl : CHAT_INSTANCE_FLAGS_LOBBY = 262144 := by decide
  have h19 : (int64.and id.Instance CHAT_INSTANCE_FLAGS_CLAN > 0) ↔ hasBit id.Instance 19 = true := by
    rw [hc, gt_iff_lt, int64.and_bit19]; simp [hasBit]
  have h18 : (int64.and id.Instance CHAT_INSTANCE_FLAGS_LOBBY > 0) ↔ hasBit id.Instance 18 = true := by
    rw [hl, gt_iff_lt, int64.and_bit18]; simp [hasBit]
  unfold GetSteam3RenderedID renderBracketSpec
  simp only [h19, h18, Bool.or_eq_true, Bool.and_eq_true, decide_eq_true_eq, or_assoc]

end steamid

/-! ## Claims C11 and C12 -/

namespace types

/-- Claim C11, as stated, fails at `Invalid`: the table holds the entry
`TYPE_INVALID: "I"`, so `String()` of 0 is the uppercase `I`, not `i`. -/
theorem C11_invalid_code_counterexample :
    Type_String TYPE_INVALID = "I" ∧ Type_String TYPE_INVALID ≠ "i" := by
  decide

theorem Type_String_unknown (t : Nat) (h : 10 < t) : Type_String t = "i" := by
  have hall : ∀ kv ∈ TypeChars, kv.1 ≤ 10 := by decide
  have hn : TypeChars.find? (fun kv => kv.1 == t) = none := by
    rw [List.find?_eq_none]
    intro kv hkv
    have := hall kv hkv
    simp only [beq_iff_eq]
    omega
  unfold Type_String
  rw [hn]

/-- Claim C11, amended: `String()` is the fixed code for each of the nine coded
kinds, the uppercase `I` for `Invalid` (0), and the lowercase sentinel `i` for
every other value, `P2P_SUPER_SEEDER` (9) included. -/
theorem C11_registry_codes (t : Nat) :
    Type_String t =
      if t = TYPE_INDIVIDUAL then "U"
      else if t = TYPE_MULTISEAT then "M"
      else if t = TYPE_GAMESERVER then "G"
      else if t = TYPE_ANON_GAMESERVER then "A"
      else if t = TYPE_PENDING then "P"
      else if t = TYPE_CONTENT_SERVER then "C"
      else if t = TYPE_CLAN then "g"
      else if t = TYPE_CHAT then "T"
      else if t = TYPE_ANON_USER then "a"
      else if t = TYPE_INVALID then "I"
      else "i" := by
  by_cases h : t ≤ 10
  · interval_cases t <;> decide
  · rw [Type_String_unknown t (by omega)]
    simp only [TYPE_INDIVIDUAL, TYPE_MULTISEAT, TYPE_GAMESERVER, TYPE_ANON_GAMESERVER,
      TYPE_PENDING, TYPE_CONTENT_SERVER, TYPE_CLAN, TYPE_CHAT, TYPE_ANON_USER, TYPE_INVALID]
    repeat rw [if_neg (by omega)]

theorem TypeChars_codes_unique :
    ∀ a ∈ TypeChars, ∀ b ∈ TypeChars, a.2 = b.2 → a = b := by
  decide

theorem ParseIn_of_mem (entries : List (Nat × String)) (h : entries.Perm TypeChars)
    (k : Nat) (c : String) (hk : (k, c) ∈ TypeChars) : ParseIn entries c = k := by
  unfold ParseIn
  cases hf : entries.find? (fun kv => kv.2 == c) with
  | none =>
    rw [List.find?_eq_none] at hf
    have := hf (k, c) (h.mem_iff.2 hk)
    simp at this
  | some kv =>
    have hm : kv ∈ TypeChars := h.mem_iff.1 (List.mem_of_find?_eq_some hf)
    have hc : kv.2 = c := by
      have := List.find?_some hf
      simpa using this
    have := TypeChars_codes_unique kv hm (k, c) hk hc
    rw [this]

theorem ParseIn_of_not_mem (entries : List (Nat × String)) (h : entries.Perm TypeChars)
    (c : String) (hk : ∀ k, (k, c) ∉ TypeChars) : ParseIn entries c = TYPE_INVALID := by
  unfold ParseIn
  cases hf : entries.find? (fun kv => kv.2 == c) with
  | none => rfl
  | some kv =>
    have hm : kv ∈ TypeChars := h.mem_iff.1 (List.mem_of_find?_eq_some hf)
    have hc : kv.2 = c := by
      have := List.find?_some hf
      simpa using this
    have : (kv.1, c) ∈ TypeChars := by rw [← hc]; exact hm
    exact absurd this (hk kv.1)

/-- Claim C12: whatever the order in which the entries of `TypeChars` are
traversed, `Parse(c)` is the same value: the one kind whose code is `c` when
there is one (the codes of the table are pairwise distinct), `Invalid`
otherwise; so `Parse(k.String()) = k` for each of the nine coded kinds. -/
theorem C12_reverse_lookup (entries : List (Nat × String)) (h : entries.Perm TypeChars)
    (c : String) :
    ParseIn entries c = Parse c ∧
    (∀ k k2, (k, c) ∈ TypeChars → (k2, c) ∈ TypeChars → k = k2) ∧
    (∀ k, (k, c) ∈ TypeChars → ParseIn entries c = k) ∧
    ((∀ k, (k, c) ∉ TypeChars) → ParseIn entries c = TYPE_INVALID) ∧
    (∀ k ∈ [TYPE_INDIVIDUAL, TYPE_MULTISEAT, TYPE_GAMESERVER, TYPE_ANON_GAMESERVER,
        TYPE_PENDING, TYPE_CONTENT_SERVER, TYPE_CLAN, TYPE_CHAT, TYPE_ANON_USER],
      ParseIn entries (Type_String k) = k) := by
  refine ⟨?_, ?_, fun k hk => ParseIn_of_mem entries h k c hk,
    ParseIn_of_not_mem entries h c, ?_⟩
  · unfold Parse
    by_cases hex : ∃ k, (k, c) ∈ TypeChars
    · obtain ⟨k, hk⟩ := hex
      rw [ParseIn_of_mem entries h k c hk, ParseIn_of_mem TypeChars (List.Perm.refl _) k c hk]
    · have hn : ∀ k, (k, c) ∉ TypeChars := fun k hk => hex ⟨k, hk⟩
      rw [ParseIn_of_not_mem entries h c hn,
        ParseIn_of_not_mem TypeChars (List.Perm.refl _) c hn]
  · intro k k2 hk hk2
    have := TypeChars_codes_unique (k, c) hk (k2, c) hk2 rfl
    exact congrArg Prod.fst this
  · intro k hk
    have hmem : (k, Type_String k) ∈ TypeChars := by
      revert k; decide
    exact ParseIn_of_mem entries h k _ hmem

/-- Claim C12 with the table traversed backwards, at the code `g` of `Clan`. -/
theorem C12_reverse_lookup_witness :
    ParseIn TypeChars.reverse "g" = Parse "g" ∧
    (∀ k k2, (k, "g") ∈ TypeChars → (k2, "g") ∈ TypeChars → k = k2) ∧
    (∀ k, (k, "g") ∈ TypeChars → ParseIn TypeChars.reverse "g" = k) ∧
    ((∀ k, (k, "g") ∉ TypeChars) → ParseIn TypeChars.reverse "g" = TYPE_INVALID) ∧
    (∀ k ∈ [TYPE_INDIVIDUAL, TYPE_MULTISEAT, TYPE_GAMESERVER, TYPE_ANON_GAMESERVER,
        TYPE_PENDING, TYPE_CONTENT_SERVER, TYPE_CLAN, TYPE_CHAT, TYPE_ANON_USER],
      ParseIn TypeChars.reverse (Type_String k) = k) :=
  C12_reverse_lookup TypeChars.reverse (List.reverse_perm _) "g"

end types

/-! ## Claims C13, C14 and C15 -/

namespace int64

/-- Setting the flag bit 19 with `|`: the bit is set in the result. -/
theorem or_bit19 (x : Int) : int64.or x 524288 / 2 ^ 19 % 2 = 1 := by
  unfold int64.or
  have h1 : toU64 524288 = 2 ^ 19 := by decide
  rw [h1]
  have hb : (toU64 x ||| 2 ^ 19) / 2 ^ 19 % 2 = 1 := by
    have : (toU64 x ||| 2 ^ 19).testBit 19 = true := by
      rw [Nat.testBit_or, Nat.testBit_two_pow_self, Bool.or_true]
    rw [Nat.testBit_to_div_mod] at this
    simpa using this
  generalize toU64 x ||| 2 ^ 19 = m at hb
  unfold ofU64
  split_ifs <;> omega

end int64

namespace steamid

open strconv regexp types

/-- An accepted bracket-form input with letter `l` goes through the bracket
branch, with an empty fourth submatch or the written `:I`. -/
theorem NewSteamId_bracketLetter (input : String) (id : SteamId) (l : Char)
    (hl : isLetter l = true) (h : NewSteamId input = .ok id)
    (hb : bracketLetter input.data l) :
    ∃ u n m4, is05 u = true ∧ allDigits n ∧ (m4 = [] ∨ ∃ i, allDigits i ∧ m4 = ':' :: i) ∧
      id = fromSteam3 blank [l] [u] n m4 := by
  obtain ⟨u, n, hu, hn, hs⟩ := hb
  rcases hs with hs | ⟨i, hi, hs⟩
  · have hm := (matchSteam3_iff_bracket input.data [l] [u] n []).2
      ⟨l, u, rfl, rfl, hl, hu, hn, Or.inl ⟨rfl, hs⟩⟩
    rw [NewSteamId_steam3 input _ _ _ _ hm] at h
    injection h with h
    exact ⟨u, n, [], hu, hn, Or.inl rfl, h.symm⟩
  · have hm := (matchSteam3_iff_bracket input.data [l] [u] n (':' :: i)).2
      ⟨l, u, rfl, rfl, hl, hu, hn, Or.inr ⟨i, hi, rfl, hs⟩⟩
    rw [NewSteamId_steam3 input _ _ _ _ hm] at h
    injection h with h
    exact ⟨u, n, ':' :: i, hu, hn, Or.inr ⟨i, hi, rfl⟩, h.symm⟩

theorem fromSteam3_U (u : Char) (n m4 : List Char) :
    fromSteam3 blank ['U'] [u] n m4 =
      ⟨(ParseInt [u]).1, 1, if m4 ≠ [] then 1 else 0, (ParseInt n).1, ""⟩ := by
  unfold fromSteam3
  have hU : (⟨['U']⟩ : String) = "U" := rfl
  simp only [hU, if_true]
  by_cases hm : m4 = []
  · simp [hm, blank, TYPE_INDIVIDUAL, INSTANCE_ALL]
  · simp [hm, blank, TYPE_INDIVIDUAL, INSTANCE_DESKTOP]

theorem fromSteam3_c (u : Char) (n m4 : List Char) :
    (fromSteam3 blank ['c'] [u] n m4).Type_ = TYPE_CLAN ∧
      ∃ x, (fromSteam3 blank ['c'] [u] n m4).Instance = int64.or x 524288 := by
  unfold fromSteam3
  have h1 : ¬ ((⟨['c']⟩ : String) = "U") := by decide
  have h2 : (⟨['c']⟩ : String) = "c" := rfl
  have hc : CHAT_INSTANCE_FLAGS_CLAN = 524288 := by decide
  simp only [h1, h2, if_false, if_true, hc]
  exact ⟨trivial, _, rfl⟩

/-- Claim C13 fails on the code: the accepted input `[U:1:4]`, written without
an instance, yields instance 0 (`All`), not Desktop; only when an instance is
written, as in `[U:1:4:3]`, is it replaced by Desktop. -/
theorem C13_individual_without_suffix_not_desktop :
    NewSteamId "[U:1:4]" = .ok ⟨1, 1, 0, 4, ""⟩ ∧
    NewSteamId "[U:1:4:3]" = .ok ⟨1, 1, 1, 4, ""⟩ ∧
    (⟨1, 1, 0, 4, ""⟩ : SteamId).Instance ≠ INSTANCE_DESKTOP := by
  decide

/-- Claim C14: for `[U:u:n]` without an instance suffix, with `u` in 1..4 and
`n` a digit string denoting a number in `1 .. 2 ^ 32 - 1`, `NewSteamId`
returns an identifier with `IsValid()` true and `IsValidIndividual()` false. -/
theorem C14_bracket_individual_validity (u : Char) (n : List Char)
    (hu : isDigit u = true) (hu1 : 1 ≤ digitVal u) (hu4 : digitVal u ≤ 4)
    (hn : allDigits n) (hn1 : 1 ≤ decValue n) (hn32 : decValue n ≤ 2 ^ 32 - 1) :
    ∃ id, NewSteamId ⟨bracketText 'U' u n⟩ = .ok id ∧
      IsValid id = true ∧ IsValidIndividual id = false := by
  have h05 : is05 u = true := by
    rw [isDigit_iff] at hu
    unfold digitVal at hu4
    unfold is05
    simp only [decide_eq_true_eq]
    omega
  have hm := (matchSteam3_iff_bracket (bracketText 'U' u n) ['U'] [u] n []).2
    ⟨'U', u, rfl, rfl, by decide, h05, hn, Or.inl ⟨rfl, rfl⟩⟩
  have hP := NewSteamId_steam3 ⟨bracketText 'U' u n⟩ _ _ _ _ hm
  rw [fromSteam3_U, ParseInt_digit u hu, ParseInt_allDigits_exact n hn (by omega)] at hP
  refine ⟨_, hP, ?_, ?_⟩
  · unfold IsValid
    simp only [TYPE_INVALID, TYPE_ANON_USER, TYPE_INDIVIDUAL, TYPE_CLAN, TYPE_GAMESERVER,
      UNIVERSE_INVALID, UNIVERSE_DEV, INSTANCE_WEB, INSTANCE_ALL, ne_eq, not_true_eq_false,
      if_false]
    rw [if_neg (by omega), if_neg (by omega), if_neg (by omega), if_neg (by omega),
      if_neg (by omega)]
  · unfold IsValidIndividual
    simp [INSTANCE_DESKTOP]

/-- Claim C14 at the input `[U:1:237408136]`. -/
theorem C14_bracket_individual_validity_witness :
    ∃ id, NewSteamId "[U:1:237408136]" = .ok id ∧
      IsValid id = true ∧ IsValidIndividual id = false :=
  C14_bracket_individual_validity '1' "237408136".data (by decide) (by decide) (by decide)
    ⟨by decide, by decide⟩ (by decide) (by decide)

/-- Claim C15: an identifier of type Clan with a non-zero instance is not
valid; and every identifier `NewSteamId` returns for a bracket-form input with
letter `c` has type Clan, has the Clan flag bit set in its instance, and is
not valid. -/
theorem C15_clan_instance_invalid :
    (∀ id : SteamId, id.Type_ = TYPE_CLAN → id.Instance ≠ 0 → IsValid id = false) ∧
    (∀ (input : String) (id : SteamId), NewSteamId input = .ok id →
      bracketLetter input.data 'c' →
      id.Type_ = TYPE_CLAN ∧ hasBit id.Instance 19 = true ∧ IsValid id = false) := by
  have hgen : ∀ id : SteamId, id.Type_ = TYPE_CLAN → id.Instance ≠ 0 → IsValid id = false := by
    intro id hT hI
    unfold IsValid
    simp only [TYPE_CLAN] at hT
    simp only [hT, TYPE_INVALID, TYPE_ANON_USER, TYPE_INDIVIDUAL, TYPE_CLAN, TYPE_GAMESERVER,
      UNIVERSE_INVALID, UNIVERSE_DEV, INSTANCE_WEB, INSTANCE_ALL]
    split_ifs <;> first | rfl | (exfalso; simp_all)
  refine ⟨hgen, ?_⟩
  intro input id h hb
  obtain ⟨u, n, m4, _, _, _, rfl⟩ := NewSteamId_bracketLetter input id 'c' (by decide) h hb
  obtain ⟨hT, x, hx⟩ := fromSteam3_c u n m4
  have hbit := int64.or_bit19 x
  have hI : hasBit (fromSteam3 blank ['c'] [u] n m4).Instance 19 = true := by
    unfold hasBit
    rw [hx]
    simpa using hbit
  refine ⟨hT, hI, hgen _ hT ?_⟩
  intro h0
  rw [hx] at h0
  rw [h0] at hbit
  revert hbit; decide

/-- Claim C15 at the identifier of type Clan with instance 1, and at the input
`[c:1:4]`. -/
theorem C15_clan_instance_invalid_witness :
    IsValid ⟨1, 7, 1, 4, ""⟩ = false ∧
    ((⟨1, 7, 524288, 4, ""⟩ : SteamId).Type_ = TYPE_CLAN ∧
      hasBit (⟨1, 7, 524288, 4, ""⟩ : SteamId).Instance 19 = true ∧
      IsValid ⟨1, 7, 524288, 4, ""⟩ = false) :=
  ⟨C15_clan_instance_invalid.1 ⟨1, 7, 1, 4, ""⟩ (by decide) (by decide),
    C15_clan_instance_invalid.2 "[c:1:4]" ⟨1, 7, 524288, 4, ""⟩ (by decide)
      ⟨'1', "4".data, by decide, ⟨by decide, by decide⟩, Or.inl (by decide)⟩⟩

end steamid

/-! ## Claims C16, C17 and C18 -/

namespace int64

theorem and_bit17 (x : Int) : 0 < int64.and x 131072 ↔ x / 2 ^ 17 % 2 = 1 := by
  unfold int64.and
  have h1 : toU64 131072 = 2 ^ 17 := by decide
  rw [h1, Nat.and_two_pow, Nat.testBit_to_div_mod]
  unfold ofU64 toU64
  by_cases hb : (x % 2 ^ 64).toNat / 2 ^ 17 % 2 = 1
  · simp only [hb, decide_True, Bool.toNat_true, Nat.one_mul]
    constructor
    · intro _; omega
    · intro _; decide
  · simp only [hb, decide_False, Bool.toNat_false, Nat.zero_mul]
    constructor
    · intro h; exact absurd h (by decide)
    · intro h; omega

end int64

namespace steamid

open strconv regexp types

theorem IsGroupChat_iff (id : SteamId) :
    IsGroupChat id = true ↔ id.Type_ = TYPE_CHAT ∧ hasBit id.Instance 19 = true := by
  have hc : CHAT_INSTANCE_FLAGS_CLAN = 524288 := by decide
  unfold IsGroupChat hasBit
  rw [hc]
  simp only [Bool.and_eq_true, decide_eq_true_eq, gt_iff_lt, int64.and_bit19]

theorem IsLobby_iff (id : SteamId) :
    IsLobby id = true ↔
      id.Type_ = TYPE_CHAT ∧ (hasBit id.Instance 18 = true ∨ hasBit id.Instance 17 = true) := by
  have hl : CHAT_INSTANCE_FLAGS_LOBBY = 262144 := by decide
  have hm : CHAT_INSTANCE_FLAGS_MMSLOBBY = 131072 := by decide
  unfold IsLobby hasBit
  rw [hl, hm]
  simp only [Bool.and_eq_true, Bool.or_eq_true, decide_eq_true_eq, gt_iff_lt,
    int64.and_bit18, int64.and_bit17]

/-- Claim C16: `IsGroupChat()` holds exactly for type Chat with bit 19 of the
instance set, `IsLobby()` exactly for type Chat with bit 18 or bit 17 set; no
identifier parsed from a bracket form with letter `c` is a group chat, and the
identifier parsed from the decimal text of
`1 * 2 ^ 56 + 8 * 2 ^ 52 + 0x80000 * 2 ^ 32 + n`, `n < 2 ^ 32`, is one. -/
theorem C16_chat_classification :
    (∀ id : SteamId,
      IsGroupChat id = true ↔ id.Type_ = TYPE_CHAT ∧ hasBit id.Instance 19 = true) ∧
    (∀ id : SteamId,
      IsLobby id = true ↔
        id.Type_ = TYPE_CHAT ∧ (hasBit id.Instance 18 = true ∨ hasBit id.Instance 17 = true)) ∧
    (∀ (input : String) (id : SteamId), NewSteamId input = .ok id →
      bracketLetter input.data 'c' → IsGroupChat id = false) ∧
    (∀ n : Nat, n < 2 ^ 32 →
      ∃ id, NewSteamId ⟨FormatUint (1 * 2 ^ 56 + 8 * 2 ^ 52 + 0x80000 * 2 ^ 32 + n)⟩ = .ok id ∧
        IsGroupChat id = true) := by
  refine ⟨IsGroupChat_iff, IsLobby_iff, ?_, ?_⟩
  · intro input id h hb
    obtain ⟨u, n, m4, _, _, _, rfl⟩ := NewSteamId_bracketLetter input id 'c' (by decide) h hb
    obtain ⟨hT, _⟩ := fromSteam3_c u n m4
    cases hg : IsGroupChat (fromSteam3 blank ['c'] [u] n m4) with
    | false => rfl
    | true =>
      have := ((IsGroupChat_iff _).1 hg).1
      rw [hT] at this
      revert this; decide
  · intro n hn
    have hN : 1 * 2 ^ 56 + 8 * 2 ^ 52 + 0x80000 * 2 ^ 32 + n < 2 ^ 63 := by omega
    have hP := NewSteamId_digits ⟨FormatUint (1 * 2 ^ 56 + 8 * 2 ^ 52 + 0x80000 * 2 ^ 32 + n)⟩
      (FormatUint_ne_nil _) (FormatUint_digits _)
    simp only [decValue_FormatUint, if_pos hN] at hP
    refine ⟨_, hP, ?_⟩
    rw [IsGroupChat_iff]
    simp only [unpack, hasBit, TYPE_CHAT, decide_eq_true_eq]
    constructor <;> omega

/-- Claim C16 at the input `[c:1:4]` and at the decimal text with `n = 4`. -/
theorem C16_chat_classification_witness :
    IsGroupChat ⟨1, 7, 524288, 4, ""⟩ = false ∧
    (∃ id, NewSteamId ⟨FormatUint (1 * 2 ^ 56 + 8 * 2 ^ 52 + 0x80000 * 2 ^ 32 + 4)⟩ = .ok id ∧
      IsGroupChat id = true) :=
  ⟨C16_chat_classification.2.2.1 "[c:1:4]" ⟨1, 7, 524288, 4, ""⟩ (by decide)
      ⟨'1', "4".data, by decide, ⟨by decide, by decide⟩, Or.inl (by decide)⟩,
    C16_chat_classification.2.2.2 4 (by norm_num)⟩

theorem tradeUrlForm_iff (s : List Char) :
    tradeUrlForm s ↔ ∃ m, matchTradeUrl s = some m := by
  constructor
  · rintro ⟨p, t, ⟨hp, hdp⟩, ht, hdt, hs⟩
    exact ⟨(p, t), (matchTradeUrl_eq_some s p t).2 ⟨hp, hdp, ht, hdt, hs⟩⟩
  · rintro ⟨⟨p, t⟩, hm⟩
    obtain ⟨hp, hdp, ht, hdt, hs⟩ := (matchTradeUrl_eq_some s p t).1 hm
    exact ⟨p, t, ⟨hp, hdp⟩, ht, hdt, hs⟩

/-- Claim C17: `FromTradeUrl(url)` returns an error exactly when `url` is not
of the trade-URL pattern, and whenever it returns an error the receiver is
unchanged in all five fields. -/
theorem C17_trade_url_failure (id : SteamId) (url : String) :
    ((FromTradeUrl id url).2 = some .invalidTradeUrl ↔ ¬ tradeUrlForm url.data) ∧
    ((FromTradeUrl id url).2 ≠ none ↔ ¬ tradeUrlForm url.data) ∧
    ((FromTradeUrl id url).2 ≠ none → (FromTradeUrl id url).1 = id) := by
  unfold FromTradeUrl
  cases hm : matchTradeUrl url.data with
  | none =>
    have hf : ¬ tradeUrlForm url.data := by
      rw [tradeUrlForm_iff, hm]; rintro ⟨m, h⟩; exact Option.noConfusion h
    simp only [hf, not_false_eq_true, iff_true, ne_eq, reduceCtorEq, implies_true, and_self]
  | some m =>
    obtain ⟨m1, m2⟩ := m
    have hf : tradeUrlForm url.data := (tradeUrlForm_iff _).2 ⟨_, hm⟩
    simp only [hf, not_true_eq_false, iff_false, ne_eq, reduceCtorEq, not_false_eq_true,
      IsEmpty.forall_iff, and_self]

/-- Claim C18: for `n < 2 ^ 63` the identifier `NewSteamId` returns for the
decimal text of `n` has `AccountId = n mod 2 ^ 32`,
`Instance = (n div 2 ^ 32) mod 2 ^ 20`, `Type = (n div 2 ^ 52) mod 16`,
`Universe = n div 2 ^ 56` and an empty token; its universe lies in 0..127. -/
theorem C18_decimal_fields (n : Nat) (h : n < 2 ^ 63) :
    ∃ id, NewSteamId ⟨FormatUint n⟩ = .ok id ∧
      id.AccountId = (n : Int) % 2 ^ 32 ∧
      id.Instance = (n : Int) / 2 ^ 32 % 2 ^ 20 ∧
      (id.Type_ : Int) = (n : Int) / 2 ^ 52 % 16 ∧
      id.Universe = (n : Int) / 2 ^ 56 ∧
      id.Token = "" ∧ 0 ≤ id.Universe ∧ id.Universe ≤ 127 := by
  have hP := NewSteamId_digits ⟨FormatUint n⟩ (FormatUint_ne_nil _) (FormatUint_digits _)
  simp only [decValue_FormatUint, if_pos h] at hP
  refine ⟨_, hP, ?_, ?_, ?_, ?_, rfl, ?_, ?_⟩ <;> simp only [unpack] <;> omega

/-- Claim C18 at `n = 76561198435082001`. -/
theorem C18_decimal_fields_witness :
    ∃ id, NewSteamId ⟨FormatUint 76561198435082001⟩ = .ok id ∧
      id.AccountId = (76561198435082001 : Nat) % 2 ^ 32 ∧
      id.Instance = (76561198435082001 : Nat) / 2 ^ 32 % 2 ^ 20 ∧
      (id.Type_ : Int) = (76561198435082001 : Nat) / 2 ^ 52 % 16 ∧
      id.Universe = (76561198435082001 : Nat) / 2 ^ 56 ∧
      id.Token = "" ∧ 0 ≤ id.Universe ∧ id.Universe ≤ 127 :=
  C18_decimal_fields 76561198435082001 (by norm_num)

end steamid

/-! ## Claim C19 -/

namespace steamid

open strconv regexp types

theorem is05_digitChar (d : Nat) (h : d ≤ 5) : is05 (digitChar d) = true := by
  unfold is05
  rw [toNat_digitChar d (by omega)]
  simp only [decide_eq_true_eq]
  omega

theorem is01_digitChar (d : Nat) (h : d ≤ 1) : is01 (digitChar d) = true := by
  unfold is01
  rw [toNat_digitChar d (by omega)]
  simp only [decide_eq_true_eq]
  omega

theorem allDigits_FormatUint (n : Nat) : allDigits (FormatUint n) :=
  ⟨FormatUint_ne_nil n, FormatUint_digits n⟩

/-- The legacy rendering of an Individual with a one-digit universe and an
account number below `2 ^ 32`, as a text `STEAM_X:Y:Z`. -/
theorem GetSteam2RenderedID_data (U a : Nat) (I : Int) (tok : String) (newFormats : List Bool)
    (hU : U < 10) (ha : a < 2 ^ 32) :
    (GetSteam2RenderedID ⟨(U : Int), TYPE_INDIVIDUAL, I, (a : Int), tok⟩ newFormats).data =
      legacyText (digitChar (if U = 1 ∧ newFormats.head? ≠ some true then 0 else U))
        (digitChar (a % 2)) (FormatUint (a / 2)) := by
  have hand : int64.and (a : Int) 1 = ((a % 2 : Nat) : Int) := by
    have := int64.and_mask a 1 (by omega) (by norm_num)
    simpa using this
  have hfl := int64.floorHalfViaFloat64_exact a (by omega)
  unfold GetSteam2RenderedID
  simp only [ne_eq, not_true_eq_false, if_false, hand, hfl, FormatInt_natCast]
  rw [FormatUint_lt_ten (a % 2) (by omega)]
  have hu : ∀ b : Bool,
      FormatInt (if (!b) = true ∧ (U : Int) = 1 then 0 else (U : Int))
        = [digitChar (if U = 1 ∧ b ≠ true then 0 else U)] := by
    intro b
    by_cases h1 : U = 1
    · cases b
      · simp only [h1]; decide
      · simp only [h1]; decide
    · have h1' : ¬ ((U : Int) = 1) := by omega
      simp only [h1, h1', and_false, false_and, if_false, FormatInt_natCast]
      exact FormatUint_lt_ten U hU
  cases newFormats with
  | nil =>
    have := hu false
    simp only [Bool.not_false, true_and, ne_eq, Bool.false_eq_true, not_false_eq_true,
      and_true] at this
    simp only [Bool.not_false, true_and, this, List.head?_nil, ne_eq, reduceCtorEq,
      not_false_eq_true, and_true, legacyText]
  | cons b rest =>
    have := hu b
    simp only [this, List.head?_cons, ne_eq, Option.some.injEq, legacyText]

/-- Claim C19: for an Individual identifier with universe in 1..5 and
`0 <= AccountId < 2 ^ 32`, and for any `newFormat` argument (false, true or
omitted), `NewSteamId` of the legacy rendering succeeds and returns the same
universe and account number, type Individual and instance Desktop. -/
theorem C19_legacy_roundtrip (id : SteamId) (newFormats : List Bool)
    (hT : id.Type_ = TYPE_INDIVIDUAL) (hU1 : 1 ≤ id.Universe) (hU5 : id.Universe ≤ 5)
    (hA0 : 0 ≤ id.AccountId) (hA : id.AccountId < 2 ^ 32) :
    NewSteamId (GetSteam2RenderedID id newFormats) =
      .ok ⟨id.Universe, TYPE_INDIVIDUAL, INSTANCE_DESKTOP, id.AccountId, ""⟩ := by
  obtain ⟨Uz, T, I, Az, tok⟩ := id
  simp only at hT hU1 hU5 hA0 hA ⊢
  subst hT
  obtain ⟨U, rfl⟩ := Int.eq_ofNat_of_zero_le (by omega : 0 ≤ Uz)
  obtain ⟨a, rfl⟩ := Int.eq_ofNat_of_zero_le hA0
  have hU : U ≤ 5 := by omega
  have hU0 : 1 ≤ U := by omega
  have ha : a < 2 ^ 32 := by omega
  have hd := GetSteam2RenderedID_data U a I tok newFormats (by omega) ha
  have hu' : (if U = 1 ∧ newFormats.head? ≠ some true then 0 else U) ≤ 5 := by
    split_ifs <;> omega
  rw [NewSteamId_legacy_exact _ _ _ _ (is05_digitChar _ hu')
    (is01_digitChar (a % 2) (by omega)) (allDigits_FormatUint (a / 2)) hd
    (by rw [decValue_FormatUint]; omega)]
  rw [decValue_FormatUint, digitVal_digitChar _ (by omega), digitVal_digitChar _ (by omega)]
  have e1 : 2 * (a / 2) + a % 2 = a := by omega
  rw [e1]
  by_cases h1 : U = 1 ∧ newFormats.head? ≠ some true
  · rw [if_pos h1]
    simp [h1.1, TYPE_INDIVIDUAL, INSTANCE_DESKTOP]
  · rw [if_neg h1]
    have : U ≠ 0 := by omega
    simp [this, TYPE_INDIVIDUAL, INSTANCE_DESKTOP]

/-- Claim C19 at universe 1 and account number 474816273, with `newFormat`
false (rendered `STEAM_0:…`) and true (rendered `STEAM_1:…`). -/
theorem C19_legacy_roundtrip_witness :
    NewSteamId (GetSteam2RenderedID ⟨1, 1, 3, 474816273, "t"⟩ [false]) =
        .ok ⟨1, TYPE_INDIVIDUAL, INSTANCE_DESKTOP, 474816273, ""⟩ ∧
    NewSteamId (GetSteam2RenderedID ⟨1, 1, 3, 474816273, "t"⟩ [true]) =
        .ok ⟨1, TYPE_INDIVIDUAL, INSTANCE_DESKTOP, 474816273, ""⟩ :=
  ⟨C19_legacy_roundtrip ⟨1, 1, 3, 474816273, "t"⟩ [false] (by decide) (by decide) (by decide)
      (by decide) (by decide),
    C19_legacy_roundtrip ⟨1, 1, 3, 474816273, "t"⟩ [true] (by decide) (by decide) (by decide)
      (by decide) (by decide)⟩

end steamid

/-! ## Claim C20 -/

namespace steamid

open strconv regexp types

theorem fromSteam3_registry (l u : Char) (n i : List Char)
    (h1 : (⟨[l]⟩ : String) ≠ "U") (h2 : (⟨[l]⟩ : String) ≠ "c") (h3 : (⟨[l]⟩ : String) ≠ "L") :
    fromSteam3 blank [l] [u] n (':' :: i) =
      ⟨(ParseInt [u]).1, Parse ⟨[l]⟩, (ParseInt i).1, (ParseInt n).1, ""⟩ := by
  unfold fromSteam3
  simp [h1, h2, h3, blank]

/-- The bracket rendering of an identifier that carries its instance, with no
flag bit set, as a text `[L:U:N:I]`. -/
theorem GetSteam3RenderedID_data (U T i a : Nat) (tok : String) (l : Char)
    (hT : T = TYPE_MULTISEAT ∨ T = TYPE_ANON_GAMESERVER) (hl : Type_String T = ⟨[l]⟩)
    (hU : U < 10) (hi : i < 2 ^ 17) :
    (GetSteam3RenderedID ⟨(U : Int), T, (i : Int), (a : Int), tok⟩).data =
      bracketInstanceText l (digitChar U) (FormatUint a) (FormatUint i) := by
  have hc : CHAT_INSTANCE_FLAGS_CLAN = 524288 := by decide
  have hlb : CHAT_INSTANCE_FLAGS_LOBBY = 262144 := by decide
  have h19 : ¬ (int64.and (i : Int) CHAT_INSTANCE_FLAGS_CLAN > 0) := by
    rw [hc, gt_iff_lt, int64.and_bit19]; omega
  have h18 : ¬ (int64.and (i : Int) CHAT_INSTANCE_FLAGS_LOBBY > 0) := by
    rw [hlb, gt_iff_lt, int64.and_bit18]; omega
  have hr : (decide (T = TYPE_ANON_GAMESERVER) || decide (T = TYPE_MULTISEAT) ||
      (decide (T = TYPE_INDIVIDUAL) && decide ((i : Int) ≠ INSTANCE_DESKTOP))) = true := by
    rcases hT with h | h <;> simp [h]
  unfold GetSteam3RenderedID
  simp only [h19, h18, if_false, hr, if_true, hl, FormatInt_natCast,
    FormatUint_lt_ten U hU, bracketInstanceText]

/-- Claim C20: for an identifier of type Multiseat or AnonGameServer with
universe in 0..5, `0 <= AccountId < 2 ^ 32` and `0 <= Instance < 2 ^ 17`,
`NewSteamId` of the bracket rendering succeeds and returns the same universe,
type, instance and account number. -/
theorem C20_bracket_roundtrip_instance (id : SteamId)
    (hT : id.Type_ = TYPE_MULTISEAT ∨ id.Type_ = TYPE_ANON_GAMESERVER)
    (hU0 : 0 ≤ id.Universe) (hU5 : id.Universe ≤ 5)
    (hA0 : 0 ≤ id.AccountId) (hA : id.AccountId < 2 ^ 32)
    (hI0 : 0 ≤ id.Instance) (hI : id.Instance < 2 ^ 17) :
    NewSteamId (GetSteam3RenderedID id) =
      .ok ⟨id.Universe, id.Type_, id.Instance, id.AccountId, ""⟩ := by
  obtain ⟨Uz, T, Iz, Az, tok⟩ := id
  simp only at hT hU0 hU5 hA0 hA hI0 hI ⊢
  obtain ⟨U, rfl⟩ := Int.eq_ofNat_of_zero_le hU0
  obtain ⟨a, rfl⟩ := Int.eq_ofNat_of_zero_le hA0
  obtain ⟨i, rfl⟩ := Int.eq_ofNat_of_zero_le hI0
  have hU : U ≤ 5 := by omega
  have ha : a < 2 ^ 32 := by omega
  have hi : i < 2 ^ 17 := by omega
  have key : ∀ l : Char, isLetter l = true → Type_String T = ⟨[l]⟩ → Parse ⟨[l]⟩ = T →
      (⟨[l]⟩ : String) ≠ "U" → (⟨[l]⟩ : String) ≠ "c" → (⟨[l]⟩ : String) ≠ "L" →
      NewSteamId (GetSteam3RenderedID ⟨(U : Int), T, (i : Int), (a : Int), tok⟩) =
        .ok ⟨(U : Int), T, (i : Int), (a : Int), ""⟩ := by
    intro l hl hs hp h1 h2 h3
    have hd := GetSteam3RenderedID_data U T i a tok l hT hs (by omega) hi
    have hm := (matchSteam3_iff_bracket _ [l] [digitChar U] (FormatUint a)
      (':' :: FormatUint i)).2
      ⟨l, digitChar U, rfl, rfl, hl, is05_digitChar U hU, allDigits_FormatUint a,
        Or.inr ⟨FormatUint i, allDigits_FormatUint i, rfl, hd⟩⟩
    rw [NewSteamId_steam3 _ _ _ _ _ hm, fromSteam3_registry l _ _ _ h1 h2 h3, hp,
      ParseInt_digit _ (isDigit_digitChar U (by omega)), digitVal_digitChar U (by omega),
      ParseInt_allDigits_exact _ (allDigits_FormatUint i) (by rw [decValue_FormatUint]; omega),
      ParseInt_allDigits_exact _ (allDigits_FormatUint a) (by rw [decValue_FormatUint]; omega),
      decValue_FormatUint, decValue_FormatUint]
  rcases hT with h | h
  · subst h
    exact key 'M' (by decide) (by decide) (by decide) (by decide) (by decide) (by decide)
  · subst h
    exact key 'A' (by decide) (by decide) (by decide) (by decide) (by decide) (by decide)

/-- Claim C20 at the Multiseat identifier with universe 1, instance 3 and
account number 7, rendered `[M:1:7:3]`. -/
theorem C20_bracket_roundtrip_instance_witness :
    GetSteam3RenderedID ⟨1, 2, 3, 7, "t"⟩ = "[M:1:7:3]" ∧
    NewSteamId (GetSteam3RenderedID ⟨1, 2, 3, 7, "t"⟩) = .ok ⟨1, 2, 3, 7, ""⟩ :=
  ⟨by decide,
    C20_bracket_roundtrip_instance ⟨1, 2, 3, 7, "t"⟩ (by decide) (by decide) (by decide)
      (by decide) (by decide) (by decide) (by decide)⟩

end steamid
